import Mathlib

/-!
Verification development for the Scholarly application's criteria-matching
query engine and persistence adapter (`scholarly_database.py`).

The embedding models:
* the `students` table schema (ten typed columns, five with `COLLATE NOCASE`),
* SQLite value comparison as used by the generated queries
  (numeric comparison for `REAL`/`INTEGER` columns, byte-lexicographic
  comparison for `TEXT`, ASCII case folding for `NOCASE` columns),
* `ScholarlyDatabase.select_students_by_criteria`: the pypika query built from
  an `AwardCriteriaRecord` (where-clauses from the criteria document,
  order-by from the sort list, limit), and its execution by the storage
  engine (filter, then multi-key sort, then limit; pypika double-quotes
  every identifier, and stock SQLite's double-quoted-string fallback reads
  a name that resolves to no column as a string literal, so every built
  statement executes),
* `ScholarlyDatabase.select_all_students` (select all, GPA descending),
* the persistence adapter state: student tables keyed by name, the
  `award_criteria` table, `file_is_open`, `student_csv_to_table`,
  `insert_award_criteria`, `select_award_criteria`,
* Python's `json.dumps`/`json.loads` on the values the application stores
  (objects, arrays, strings, integers, booleans, null), at the level of the
  serialized character stream.
-/

deriving instance DecidableEq for Except

namespace Scholarly

/-- Characters used by the JSON serializer and the SQL text model, defined by
code point to keep every definition kernel-computable. -/
def quoteChar : Char := Char.ofNat 34

def backslashChar : Char := Char.ofNat 92

def lbraceChar : Char := Char.ofNat 123

def rbraceChar : Char := Char.ofNat 125

def lbrackChar : Char := Char.ofNat 91

def rbrackChar : Char := Char.ofNat 93

def commaChar : Char := Char.ofNat 44

def spaceChar : Char := Char.ofNat 32

def colonChar : Char := Char.ofNat 58

/-- Values as SQLite stores and compares them in this application: numbers
(`INTEGER` and `REAL` compare numerically with each other, modelled as one
rational-valued case) and text. -/
inductive SqlValue where
  | num (q : ℚ)
  | text (s : String)
deriving DecidableEq

/-- Three-way comparison derived from a linear order. -/
def cmpv {α : Type} [LinearOrder α] (a b : α) : Ordering :=
  if a < b then Ordering.lt else if b < a then Ordering.gt else Ordering.eq

/-- Byte/code-point comparison of characters, as SQLite's BINARY collation
compares UTF-8 text (UTF-8 byte order agrees with code-point order). -/
def cmpChar (a b : Char) : Ordering :=
  cmpv a.toNat b.toNat

/-- Lexicographic comparison of character lists; a strict prefix sorts first,
matching memcmp semantics on UTF-8 bytes. -/
def cmpChars : List Char → List Char → Ordering
  | [], [] => Ordering.eq
  | [], _ :: _ => Ordering.lt
  | _ :: _, [] => Ordering.gt
  | a :: as, b :: bs =>
    match cmpChar a b with
    | Ordering.eq => cmpChars as bs
    | o => o

/-- SQLite's NOCASE collation folds the 26 ASCII upper-case letters to lower
case and leaves every other character unchanged; `Char.toLower` does exactly
the ASCII fold. -/
def foldNocase (s : String) : String :=
  String.mk (s.data.map Char.toLower)

/-- Comparison of two stored values under a column collation (`nocase` is the
column's `COLLATE NOCASE` flag). Across storage classes SQLite orders all
numbers before all text. -/
def SqlValue.cmp (nocase : Bool) : SqlValue → SqlValue → Ordering
  | SqlValue.num a, SqlValue.num b => cmpv a b
  | SqlValue.num _, SqlValue.text _ => Ordering.lt
  | SqlValue.text _, SqlValue.num _ => Ordering.gt
  | SqlValue.text a, SqlValue.text b =>
    if nocase then cmpChars (foldNocase a).data (foldNocase b).data
    else cmpChars a.data b.data

/-- Value equality under a collation, as used by `=`, `<>` and `IN`. -/
def SqlValue.eqv (nocase : Bool) (a b : SqlValue) : Bool :=
  SqlValue.cmp nocase a b == Ordering.eq

/-- Boolean `a <= b` under a collation. -/
def SqlValue.leb (nocase : Bool) (a b : SqlValue) : Bool :=
  SqlValue.cmp nocase a b != Ordering.gt

/-- Boolean `a < b` under a collation. -/
def SqlValue.ltb (nocase : Bool) (a b : SqlValue) : Bool :=
  SqlValue.cmp nocase a b == Ordering.lt

/-- One row of the `students` table, with the ten columns of
`ScholarlyDatabase.__students_columns` at their declared types
(`TEXT` as `String`, `REAL` as `ℚ`, `INTEGER` as `ℤ`). -/
structure StudentRecord where
  name : String
  student_ID : String
  cum_gpa : ℚ
  major : String
  classification : String
  earned_credits : ℤ
  enrolled : String
  email : String
  gender : String
  in_state : String
deriving DecidableEq

/-- Canonical (lower-cased) spelling of a column reference; SQLite resolves
column names case-insensitively. -/
def canonField (f : String) : String :=
  foldNocase f

/-- Resolution of a column reference against the `students` schema: which of
the ten declared columns (if any) a name denotes, as the projection reading
that column out of a row. Resolution depends only on the name, never on the
row, exactly as in the relational engine. -/
def fieldGetter (f : String) : Option (StudentRecord → SqlValue) :=
  let c := canonField f
  if c = "name" then some (fun r => SqlValue.text r.name)
  else if c = "student_id" then some (fun r => SqlValue.text r.student_ID)
  else if c = "cum_gpa" then some (fun r => SqlValue.num r.cum_gpa)
  else if c = "major" then some (fun r => SqlValue.text r.major)
  else if c = "classification" then
    some (fun r => SqlValue.text r.classification)
  else if c = "earned_credits" then
    some (fun r => SqlValue.num (r.earned_credits : ℚ))
  else if c = "enrolled" then some (fun r => SqlValue.text r.enrolled)
  else if c = "email" then some (fun r => SqlValue.text r.email)
  else if c = "gender" then some (fun r => SqlValue.text r.gender)
  else if c = "in_state" then some (fun r => SqlValue.text r.in_state)
  else none

/-- Looks a column of the `students` schema up in a row. Returns `none` when
the name resolves to no column of `__students_columns`. -/
def getField (r : StudentRecord) (f : String) : Option SqlValue :=
  (fieldGetter f).map (fun g => g r)

/-- Columns declared `COLLATE NOCASE` in `__students_columns`: `major`,
`classification`, `enrolled`, `gender`, `in_state`. -/
def fieldNocase (f : String) : Bool :=
  let c := canonField f
  c = "major" || c = "classification" || c = "enrolled" || c = "gender" ||
    c = "in_state"

/-- Column-reference validity against the `students` schema. -/
def validField (f : String) : Bool :=
  (fieldGetter f).isSome

/-- Python values as the application passes them around after `json.loads`:
`None`, `bool`, `int`, `str`, `list`, `dict` (string keys, insertion order).
Floating-point leaves are outside the model; every numeric value the model
covers is an integer. -/
inductive Json where
  | jnull : Json
  | jbool (b : Bool) : Json
  | jint (n : ℤ) : Json
  | jstr (s : String) : Json
  | jarr (items : List Json) : Json
  | jobj (fields : List (String × Json)) : Json

/-- How a Python scalar reaches SQLite as a comparison operand in the pypika
query. Lists and dicts are not valid scalar operands in the original (pypika
or SQLite rejects them); the values this model assigns to those two cases are
never relied upon by any theorem. -/
def Json.toSqlValue : Json → SqlValue
  | Json.jnull => SqlValue.text "None"
  | Json.jbool b => SqlValue.num (if b then 1 else 0)
  | Json.jint n => SqlValue.num (n : ℚ)
  | Json.jstr s => SqlValue.text s
  | Json.jarr _ => SqlValue.text "?list?"
  | Json.jobj _ => SqlValue.text "?dict?"

/-- Operand of `isin`/`notin`: the value of `$in`/`$nin` is a JSON array of
scalars. A non-array operand is not a valid argument to `pypika.Field.isin`
in the original; the singleton fallback here is never relied upon by any
theorem. -/
def Json.toSqlList : Json → List SqlValue
  | Json.jarr items => items.map Json.toSqlValue
  | j => [j.toSqlValue]

/-- Where-clause predicates `select_students_by_criteria` can place on the
query, one constructor per pypika construct it uses. -/
inductive Pred where
  | isin (field : String) (vals : List SqlValue)
  | notin (field : String) (vals : List SqlValue)
  | gte (field : String) (v : SqlValue)
  | gt (field : String) (v : SqlValue)
  | lte (field : String) (v : SqlValue)
  | lt (field : String) (v : SqlValue)
  | eq (field : String) (v : SqlValue)
  | ne (field : String) (v : SqlValue)
deriving DecidableEq

/-- Value a double-quoted token denotes in a row context: the column's value
when the name resolves against the schema, otherwise the token itself as a
string constant — SQLite's double-quoted-string fallback (on by default in
stock builds, including the library behind Python's `sqlite3`) reads an
unresolvable double-quoted name as a string literal rather than failing. -/
def refValue (r : StudentRecord) (f : String) : SqlValue :=
  match getField r f with
  | some v => v
  | none => SqlValue.text f

/-- Truth of one predicate on one row, per SQLite comparison semantics with
the column's collation; the referenced token denotes a column value or,
via the double-quoted-string fallback, a string literal (`refValue`). -/
def evalPred (r : StudentRecord) : Pred → Bool
  | Pred.isin f vs =>
    vs.any (fun w => SqlValue.eqv (fieldNocase f) (refValue r f) w)
  | Pred.notin f vs =>
    !(vs.any (fun w => SqlValue.eqv (fieldNocase f) (refValue r f) w))
  | Pred.gte f w => SqlValue.leb (fieldNocase f) w (refValue r f)
  | Pred.gt f w => SqlValue.ltb (fieldNocase f) w (refValue r f)
  | Pred.lte f w => SqlValue.leb (fieldNocase f) (refValue r f) w
  | Pred.lt f w => SqlValue.ltb (fieldNocase f) (refValue r f) w
  | Pred.eq f w => SqlValue.eqv (fieldNocase f) (refValue r f) w
  | Pred.ne f w => !(SqlValue.eqv (fieldNocase f) (refValue r f) w)

/-- The in-memory award-criteria record: `name`, the criteria dict (field
name to JSON value), the integer result limit (the Python attribute may also
be `None`, which `if record.limit:` treats exactly like `0`, so the model
uses `0` for absent), and the sort list of `(field, direction)` pairs.
Modelled from the spec: the class itself lives in `award_criteria_record.py`,
which is not among the sources; its shape is fixed by §3 of the spec and by
every use in `scholarly_database.py`. -/
structure AwardCriteriaRecord where
  name : String
  criteria : List (String × Json)
  limit : ℤ
  sort : List (String × ℤ)

/-- Operator tokens recognised by the `if`/`elif` chain of
`select_students_by_criteria`, in source order. -/
def recognizedTokens : List String :=
  ["$in", "$nin", "$gte", "$gt", "$lte", "$lt", "$eq", "$ne"]

/-- Compilation of one operator document (the dict value of one criteria
field): the `for key, val in item.items()` loop with its `if`/`elif` chain.
A key equal to none of the eight tokens falls through every branch and adds
nothing. -/
def compileOps (field : String) (ops : List (String × Json)) : List Pred :=
  ops.foldl
    (fun acc kv =>
      if kv.1 = "$in" then acc ++ [Pred.isin field kv.2.toSqlList]
      else if kv.1 = "$nin" then acc ++ [Pred.notin field kv.2.toSqlList]
      else if kv.1 = "$gte" then acc ++ [Pred.gte field kv.2.toSqlValue]
      else if kv.1 = "$gt" then acc ++ [Pred.gt field kv.2.toSqlValue]
      else if kv.1 = "$lte" then acc ++ [Pred.lte field kv.2.toSqlValue]
      else if kv.1 = "$lt" then acc ++ [Pred.lt field kv.2.toSqlValue]
      else if kv.1 = "$eq" then acc ++ [Pred.eq field kv.2.toSqlValue]
      else if kv.1 = "$ne" then acc ++ [Pred.ne field kv.2.toSqlValue]
      else acc)
    []

/-- Compilation of a whole criteria dict: the `for field, item in
record.criteria.items()` loop. A dict value takes the operator-document
branch; any other value compiles to a single equality predicate. The
`if record.criteria:` guard in the source only skips an empty loop, so it
needs no separate case. -/
def compileCriteria (criteria : List (String × Json)) : List Pred :=
  criteria.foldl
    (fun acc fi =>
      match fi.2 with
      | Json.jobj ops => acc ++ compileOps fi.1 ops
      | item => acc ++ [Pred.eq fi.1 item.toSqlValue])
    []

/-- The SQL statement `select_students_by_criteria` hands to the storage
engine: where-clauses (conjoined), order-by keys with resolved directions
(`true` = `DESC`), and an optional `LIMIT`. -/
structure SqlQuery where
  preds : List Pred
  orderBy : List (String × Bool)
  limit : Option ℤ
deriving DecidableEq

/-- Query construction in `select_students_by_criteria`, before anything is
executed: order-by entries from `record.sort` (`-1` maps to descending,
every other integer to ascending), where-clauses from `record.criteria`, and
`LIMIT` only when `record.limit` is truthy (non-zero). -/
def buildQuery (record : AwardCriteriaRecord) : SqlQuery :=
  SqlQuery.mk (compileCriteria record.criteria)
    (record.sort.map (fun fo => (fo.1, fo.2 = -1)))
    (if record.limit = 0 then none else some record.limit)

/-- Row comparison under a single `ORDER BY` key: the column's value
comparison under its collation, swapped for a descending (`true`) direction.
An unresolvable key is, by the double-quoted-string fallback, a constant
string literal, under which every pair of rows compares equal. -/
def keyCmp (fd : String × Bool) (a b : StudentRecord) : Ordering :=
  let c :=
    match fieldGetter fd.1 with
    | some g => SqlValue.cmp (fieldNocase fd.1) (g a) (g b)
    | none => Ordering.eq
  if fd.2 then c.swap else c

/-- Multi-key row comparison for `ORDER BY k1 [DESC], k2 [DESC], ...`: the
first key decides unless it compares equal, in which case the later keys
break the tie. -/
def cmpRowsBy : List (String × Bool) → StudentRecord → StudentRecord → Ordering
  | [], _, _ => Ordering.eq
  | fd :: rest, a, b =>
    match keyCmp fd a b with
    | Ordering.eq => cmpRowsBy rest a b
    | o => o

/-- Insertion into a sorted list: the new element goes in front of the first
element that is not strictly below it. -/
def insertBy {α : Type} (ltb : α → α → Bool) (x : α) : List α → List α
  | [] => [x]
  | y :: ys => if ltb y x then y :: insertBy ltb x ys else x :: y :: ys

/-- Insertion sort; with the comparison below it realises the ordered
sequence the storage engine returns for the order-by keys. -/
def sortBy {α : Type} (ltb : α → α → Bool) : List α → List α
  | [] => []
  | x :: xs => insertBy ltb x (sortBy ltb xs)

/-- Ordering of the result set for an order-by key list. -/
def sortRows (keys : List (String × Bool)) (rows : List StudentRecord) :
    List StudentRecord :=
  sortBy (fun a b => cmpRowsBy keys a b == Ordering.lt) rows

/-- Result truncation for `LIMIT n`: SQLite treats a negative `n` as
unbounded, otherwise returns the first `n` rows. -/
def applyLimit {α : Type} (lim : Option ℤ) (l : List α) : List α :=
  match lim with
  | none => l
  | some n => if n < 0 then l else l.take n.toNat

/-- Execution of the statement by the storage engine: filter by the
conjunction of the where-clauses, order by the sort keys, and truncate to
the limit. Preparation never fails on the statements this adapter builds:
pypika double-quotes every identifier and stock SQLite's
double-quoted-string fallback turns a name that resolves to no column into
a string literal (see `refValue` and `keyCmp`), so even a criteria document
over unknown fields executes normally. The `Except` layer carries
storage-level failures (an unreachable database file, say), which no input
of this model produces. -/
def execQuery (q : SqlQuery) (rows : List StudentRecord) :
    Except String (List StudentRecord) :=
  Except.ok
    (applyLimit q.limit
      (sortRows q.orderBy
        (rows.filter (fun r => q.preds.all (evalPred r)))))

/-- Model of `ScholarlyDatabase.select_students_by_criteria`: build the
pypika query from the record (this step is total — the source performs no
validation of its own) and hand it to the storage engine, whose rows are the
`rows` argument. -/
def select_students_by_criteria (record : AwardCriteriaRecord)
    (rows : List StudentRecord) : Except String (List StudentRecord) :=
  execQuery (buildQuery record) rows

/-- Model of `ScholarlyDatabase.select_all_students`: `SELECT * FROM t ORDER
BY cum_gpa DESC`, i.e. the stored rows ordered by the single descending
`cum_gpa` key. -/
def select_all_students (rows : List StudentRecord) : List StudentRecord :=
  sortRows [("cum_gpa", true)] rows

/-- Errors the adapter operations can surface: the repository's own
`FileIsOpenError` (the spec's name for it is `FileAlreadyOpenError`), and the
storage engine's integrity / missing-table / malformed-JSON failures. -/
inductive ScholarlyError where
  | fileIsOpen (filePath : String)
  | uniqueConstraint (table : String)
  | noSuchTable (table : String)
  | jsonParse
deriving DecidableEq

/-- Message carried by the repository's `FileIsOpenError`. -/
def ScholarlyError.message : ScholarlyError → String
  | ScholarlyError.fileIsOpen p => "File '" ++ p ++ "' is already open."
  | ScholarlyError.uniqueConstraint t => "UNIQUE constraint failed: " ++ t
  | ScholarlyError.noSuchTable t => "no such table: " ++ t
  | ScholarlyError.jsonParse => "malformed JSON"

/-- One stored row of the `award_criteria` table: `name TEXT PRIMARY KEY
COLLATE NOCASE`, `criteria JSON` and `sort JSON` held as serialized text,
`limit INTEGER`. -/
structure AwardRow where
  name : String
  criteriaText : String
  limitVal : ℤ
  sortText : String
deriving DecidableEq

/-- State of the SQLite database file behind a `ScholarlyDatabase`: the
student tables (one per imported CSV, keyed by the file path used as table
name), the `award_criteria` table (plus whether it has been created), and
the object's `students_table_name` attribute. -/
structure AdapterState where
  studentTables : List (String × List StudentRecord)
  awardRows : List AwardRow
  awardTableCreated : Bool
  activeStudentsTable : Option String

/-- Names present in `sqlite_master` with `type = 'table'`. -/
def tableNames (st : AdapterState) : List String :=
  st.studentTables.map Prod.fst ++
    (if st.awardTableCreated then ["award_criteria"] else [])

/-- Model of `ScholarlyDatabase.file_is_open`: queries `sqlite_master` for a
table whose name equals the file path (`sqlite_master.name` uses the default
BINARY collation, so the comparison is exact). -/
def file_is_open (st : AdapterState) (filePath : String) : Bool :=
  (tableNames st).contains filePath

/-- Model of `ScholarlyDatabase.drop_table` (`DROP TABLE IF EXISTS`). -/
def drop_table (st : AdapterState) (tableName : String) : AdapterState :=
  AdapterState.mk (st.studentTables.filter (fun e => e.1 ≠ tableName))
    (if tableName = "award_criteria" then [] else st.awardRows)
    (if tableName = "award_criteria" then false else st.awardTableCreated)
    st.activeStudentsTable

/-- Model of `ScholarlyDatabase.create_table` for a students table
(`CREATE TABLE IF NOT EXISTS` with `__students_columns`). -/
def create_students_table (st : AdapterState) (tableName : String) :
    AdapterState :=
  if file_is_open st tableName then st
  else
    AdapterState.mk (st.studentTables ++ [(tableName, [])]) st.awardRows
      st.awardTableCreated st.activeStudentsTable

/-- Rows currently stored in a student table. -/
def tableRows (st : AdapterState) (tableName : String) : List StudentRecord :=
  ((st.studentTables.find? (fun e => e.1 = tableName)).map Prod.snd).getD []

/-- Replaces the row list of one student table. -/
def setTableRows (st : AdapterState) (tableName : String)
    (rows : List StudentRecord) : AdapterState :=
  AdapterState.mk
    (st.studentTables.map (fun e => if e.1 = tableName then (e.1, rows) else e))
    st.awardRows st.awardTableCreated st.activeStudentsTable

/-- Model of `ScholarlyDatabase.insert_student`: append the tuple to the
table; a duplicate `student_ID` violates the `TEXT PRIMARY KEY` and raises
the engine's integrity error. -/
def insert_student (st : AdapterState) (tableName : String)
    (r : StudentRecord) : Except ScholarlyError AdapterState :=
  let rows := tableRows st tableName
  if rows.any (fun x => x.student_ID = r.student_ID) then
    Except.error (ScholarlyError.uniqueConstraint tableName)
  else Except.ok (setTableRows st tableName (rows ++ [r]))

/-- The bulk-insert loop of `student_csv_to_table`; an integrity failure
raises out of the loop, leaving the rows inserted so far in place. -/
def insertStudents (st : AdapterState) (tableName : String) :
    List StudentRecord → AdapterState × Option ScholarlyError
  | [] => (st, none)
  | r :: rs =>
    match insert_student st tableName r with
    | Except.ok st2 => insertStudents st2 tableName rs
    | Except.error e => (st, some e)

/-- Model of `ScholarlyDatabase.student_csv_to_table`: first the
`file_is_open` check, whose failure raises `FileIsOpenError` before anything
is set, dropped, created or written; otherwise set the active table name to
the file path, drop it, recreate it, and bulk-insert the CSV rows (the
`csv` argument stands for the parsed content of the file). -/
def student_csv_to_table (st : AdapterState) (filePath : String)
    (csv : List StudentRecord) : AdapterState × Option ScholarlyError :=
  if file_is_open st filePath then
    (st, some (ScholarlyError.fileIsOpen filePath))
  else
    let st1 := AdapterState.mk st.studentTables st.awardRows
      st.awardTableCreated (some filePath)
    let st2 := drop_table st1 filePath
    let st3 := create_students_table st2 filePath
    insertStudents st3 filePath csv

/-- Minus sign. -/
def minusChar : Char := Char.ofNat 45

/-- ASCII decimal digit test. -/
def isDigitChar (c : Char) : Bool :=
  48 ≤ c.toNat && c.toNat ≤ 57

/-- Numeric value of an ASCII digit. -/
def digitVal (c : Char) : ℕ :=
  c.toNat - 48

/-- Decimal digits of a natural number, most significant first, as Python's
`json.dumps` prints integers. -/
def natChars (n : ℕ) : List Char :=
  if n = 0 then [Char.ofNat 48]
  else ((Nat.digits 10 n).map (fun d => Char.ofNat (48 + d))).reverse

/-- Decimal form of an integer. -/
def intChars : ℤ → List Char
  | Int.ofNat n => natChars n
  | Int.negSucc m => minusChar :: natChars (m + 1)

/-- JSON string escaping as `json.dumps` applies it to the printable-ASCII
characters this model covers: quote and backslash get a backslash, every
other covered character is emitted as itself. (Control and non-ASCII
characters, which `json.dumps` turns into `\uXXXX` escapes, are outside the
model; see `Json.simple`.) -/
def escChar (c : Char) : List Char :=
  if c = quoteChar then [backslashChar, quoteChar]
  else if c = backslashChar then [backslashChar, backslashChar]
  else [c]

/-- Serialized form of a JSON string: quoted and escaped. -/
def escString (s : String) : List Char :=
  quoteChar :: ((s.data.map escChar).flatten ++ [quoteChar])

mutual

/-- Serialized character stream of a value, exactly as `json.dumps` with its
default separators (`', '` between items, `': '` after keys) prints it. -/
def dumpChars : Json → List Char
  | Json.jnull => "null".data
  | Json.jbool true => "true".data
  | Json.jbool false => "false".data
  | Json.jint n => intChars n
  | Json.jstr s => escString s
  | Json.jarr items => lbrackChar :: (dumpItems items ++ [rbrackChar])
  | Json.jobj fields => lbraceChar :: (dumpFields fields ++ [rbraceChar])

/-- Array elements joined by `', '`. -/
def dumpItems : List Json → List Char
  | [] => []
  | [x] => dumpChars x
  | x :: y :: xs =>
    dumpChars x ++ commaChar :: spaceChar :: dumpItems (y :: xs)

/-- Object members `"key": value` joined by `', '`. -/
def dumpFields : List (String × Json) → List Char
  | [] => []
  | [(k, v)] => escString k ++ colonChar :: spaceChar :: dumpChars v
  | (k, v) :: kv :: xs =>
    escString k ++ colonChar :: spaceChar :: dumpChars v ++
      commaChar :: spaceChar :: dumpFields (kv :: xs)

end

/-- Model of `json.dumps`. -/
def dumps (j : Json) : String :=
  String.mk (dumpChars j)

/-- Printable-ASCII character (code points 32 to 126). -/
def simpleChar (c : Char) : Bool :=
  32 ≤ c.toNat && c.toNat ≤ 126

/-- Strings whose serialization needs no `\uXXXX` or control escapes. -/
def simpleStr (s : String) : Bool :=
  s.data.all simpleChar

mutual

/-- Values whose string leaves and object keys are printable ASCII: on these
the model's serializer agrees with `json.dumps` character for character. -/
def Json.simple : Json → Bool
  | Json.jnull => true
  | Json.jbool _ => true
  | Json.jint _ => true
  | Json.jstr s => simpleStr s
  | Json.jarr items => simpleItems items
  | Json.jobj fields => simpleFields fields

/-- All array elements simple. -/
def simpleItems : List Json → Bool
  | [] => true
  | x :: xs => Json.simple x && simpleItems xs

/-- All keys and member values simple. -/
def simpleFields : List (String × Json) → Bool
  | [] => true
  | (k, v) :: xs => simpleStr k && Json.simple v && simpleFields xs

end

/-- Strips an expected literal prefix off the input. -/
def stripPre : List Char → List Char → Option (List Char)
  | [], cs => some cs
  | _ :: _, [] => none
  | t :: ts, c :: cs => if c = t then stripPre ts cs else none

/-- Parses the body of a JSON string (after the opening quote) up to and
over the closing quote, undoing the two escapes the serializer emits. -/
def parseStrBody : List Char → Option (List Char × List Char)
  | [] => none
  | [c] =>
    if c = quoteChar then some ([], []) else none
  | c :: e :: rest2 =>
    if c = quoteChar then some ([], e :: rest2)
    else if c = backslashChar then
      if e = quoteChar || e = backslashChar then
        (parseStrBody rest2).map (fun p => (e :: p.1, p.2))
      else none
    else (parseStrBody (e :: rest2)).map (fun p => (c :: p.1, p.2))

/-- Reads a maximal run of decimal digits into a number. -/
def parseNat (cs : List Char) : ℕ × List Char :=
  ((cs.takeWhile isDigitChar).foldl (fun a c => a * 10 + digitVal c) 0,
    cs.dropWhile isDigitChar)

mutual

/-- Parses one JSON value from the head of the input, fuel-bounded. This is
the model of `json.loads` on the canonical form `json.dumps` emits; on text
outside that fragment it answers `none`. -/
def parseVal : ℕ → List Char → Option (Json × List Char)
  | 0, _ => none
  | _ + 1, [] => none
  | fuel + 1, c :: cs =>
    if c = 'n' then
      (stripPre "ull".data cs).map (fun rest => (Json.jnull, rest))
    else if c = 't' then
      (stripPre "rue".data cs).map (fun rest => (Json.jbool true, rest))
    else if c = 'f' then
      (stripPre "alse".data cs).map (fun rest => (Json.jbool false, rest))
    else if c = quoteChar then
      (parseStrBody cs).map (fun p => (Json.jstr (String.mk p.1), p.2))
    else if c = lbrackChar then
      if cs.head? = some rbrackChar then some (Json.jarr [], cs.tail)
      else (parseItems fuel cs).map (fun p => (Json.jarr p.1, p.2))
    else if c = lbraceChar then
      if cs.head? = some rbraceChar then some (Json.jobj [], cs.tail)
      else (parseFields fuel cs).map (fun p => (Json.jobj p.1, p.2))
    else if c = minusChar then
      if cs.head?.any isDigitChar then
        some (Json.jint (-((parseNat cs).1 : ℤ)), (parseNat cs).2)
      else none
    else if isDigitChar c then
      some (Json.jint ((parseNat (c :: cs)).1 : ℤ), (parseNat (c :: cs)).2)
    else none

/-- Parses `value (', ' value)* ']'` — the non-empty element list of an
array together with its closing bracket. -/
def parseItems : ℕ → List Char → Option (List Json × List Char)
  | 0, _ => none
  | fuel + 1, cs =>
    (parseVal fuel cs).bind (fun jp =>
      match jp.2 with
      | [] => none
      | r :: rest2 =>
        if r = rbrackChar then some ([jp.1], rest2)
        else if r = commaChar then
          match rest2 with
          | [] => none
          | s :: rest3 =>
            if s = spaceChar then
              (parseItems fuel rest3).map (fun p => (jp.1 :: p.1, p.2))
            else none
        else none)

/-- Parses `"key": value (', ' "key": value)* '\x7d'` — the non-empty member
list of an object together with its closing brace. -/
def parseFields : ℕ → List Char → Option (List (String × Json) × List Char)
  | 0, _ => none
  | _ + 1, [] => none
  | fuel + 1, c :: rest =>
    if c = quoteChar then
      (parseStrBody rest).bind (fun kp =>
        match kp.2 with
        | a :: b :: rest3 =>
          if a = colonChar then
            if b = spaceChar then
              (parseVal fuel rest3).bind (fun vp =>
                match vp.2 with
                | [] => none
                | r :: rest5 =>
                  if r = rbraceChar then
                    some ([(String.mk kp.1, vp.1)], rest5)
                  else if r = commaChar then
                    match rest5 with
                    | [] => none
                    | s :: rest6 =>
                      if s = spaceChar then
                        (parseFields fuel rest6).map
                          (fun p => ((String.mk kp.1, vp.1) :: p.1, p.2))
                      else none
                  else none)
            else none
          else none
        | _ => none)
    else none

end

/-- Model of `json.loads` (restricted to the canonical serialization format;
see `parseVal`): the whole input must parse as one value. -/
def loads (s : String) : Option Json :=
  match parseVal (s.data.length + 1) s.data with
  | some (j, []) => some j
  | _ => none

/-- JSON form of a criteria dict (`record.criteria` is already a dict). -/
def critJson (criteria : List (String × Json)) : Json :=
  Json.jobj criteria

/-- JSON form of a sort list: a list of two-element `[field, direction]`
arrays, which is what the application's JSON files and `json.dumps` use for
`record.sort`. -/
def sortJson (sort : List (String × ℤ)) : Json :=
  Json.jarr (sort.map (fun fd => Json.jarr [Json.jstr fd.1, Json.jint fd.2]))

/-- Reads a parsed criteria value back as a dict; rows written by
`insert_award_criteria` always hold an object here. -/
def jsonToCrit : Json → Option (List (String × Json))
  | Json.jobj fields => some fields
  | _ => none

/-- Reads one parsed `[field, direction]` pair. -/
def pairOfJson : Json → Option (String × ℤ)
  | Json.jarr [Json.jstr f, Json.jint d] => some (f, d)
  | _ => none

/-- Reads a parsed sort value back as a list of pairs; rows written by
`insert_award_criteria` always hold this shape. -/
def jsonToSort : Json → Option (List (String × ℤ))
  | Json.jarr items => items.mapM pairOfJson
  | _ => none

/-- Model of `ScholarlyDatabase.insert_award_criteria`: `INSERT INTO
award_criteria VALUES (name, json.dumps(criteria), limit, json.dumps(sort))`.
The `name` column's NOCASE primary key makes a case-insensitive duplicate an
integrity error; a missing table is the engine's `no such table` error. -/
def insert_award_criteria (st : AdapterState) (rec : AwardCriteriaRecord) :
    Except ScholarlyError AdapterState :=
  if !st.awardTableCreated then
    Except.error (ScholarlyError.noSuchTable "award_criteria")
  else if st.awardRows.any (fun row => foldNocase row.name = foldNocase rec.name)
  then Except.error (ScholarlyError.uniqueConstraint "award_criteria")
  else
    Except.ok
      (AdapterState.mk st.studentTables
        (st.awardRows ++
          [AwardRow.mk rec.name (dumps (critJson rec.criteria)) rec.limit
            (dumps (sortJson rec.sort))])
        st.awardTableCreated st.activeStudentsTable)

/-- Model of `ScholarlyDatabase.select_award_criteria`: `SELECT * FROM
award_criteria WHERE name = award_name` (NOCASE column collation), then
`fetchone`; `None` when no row matches, otherwise the record rebuilt with
`json.loads` on the criteria and sort columns. The original stores whatever
`json.loads` returns; rows this adapter wrote always convert back to the
record's dict/list shapes, and a row that would not is flagged instead of
silently reshaped. -/
def select_award_criteria (st : AdapterState) (awardName : String) :
    Except ScholarlyError (Option AwardCriteriaRecord) :=
  if !st.awardTableCreated then
    Except.error (ScholarlyError.noSuchTable "award_criteria")
  else
    match st.awardRows.find?
        (fun row => foldNocase row.name = foldNocase awardName) with
    | none => Except.ok none
    | some row =>
      match loads row.criteriaText, loads row.sortText with
      | some cj, some sj =>
        match jsonToCrit cj, jsonToSort sj with
        | some c, some s =>
          Except.ok (some (AwardCriteriaRecord.mk row.name c row.limitVal s))
        | _, _ => Except.error ScholarlyError.jsonParse
      | _, _ => Except.error ScholarlyError.jsonParse

/-- Predicates one operator-document entry contributes, by token; this is the
branch table of the `if`/`elif` chain in closed form (an unrecognized token
contributes nothing), used to state what `compileOps` keeps and drops. -/
def tokenPreds (field : String) (kv : String × Json) : List Pred :=
  if kv.1 = "$in" then [Pred.isin field kv.2.toSqlList]
  else if kv.1 = "$nin" then [Pred.notin field kv.2.toSqlList]
  else if kv.1 = "$gte" then [Pred.gte field kv.2.toSqlValue]
  else if kv.1 = "$gt" then [Pred.gt field kv.2.toSqlValue]
  else if kv.1 = "$lte" then [Pred.lte field kv.2.toSqlValue]
  else if kv.1 = "$lt" then [Pred.lt field kv.2.toSqlValue]
  else if kv.1 = "$eq" then [Pred.eq field kv.2.toSqlValue]
  else if kv.1 = "$ne" then [Pred.ne field kv.2.toSqlValue]
  else []

/-- Predicates one criteria entry contributes. -/
def entryPreds (fi : String × Json) : List Pred :=
  match fi.2 with
  | Json.jobj ops => compileOps fi.1 ops
  | item => [Pred.eq fi.1 item.toSqlValue]

/-- Laws a three-way comparator must satisfy for sorting to behave like an
`ORDER BY`: antisymmetry of the answer under argument swap, substitutivity
of comparison-equal elements, and transitivity of strict order. -/
structure LawfulCmp {α : Type} (cmp : α → α → Ordering) : Prop where
  symm : ∀ a b, cmp a b = (cmp b a).swap
  eq_subst : ∀ a b c, cmp a b = Ordering.eq → cmp a c = cmp b c
  lt_trans : ∀ a b c, cmp a b = Ordering.lt → cmp b c = Ordering.lt →
    cmp a c = Ordering.lt

/-- Sample rows used by the concrete witnesses: four students with GPAs 3,
3.5, 4 and 2.5. -/
def rowA : StudentRecord :=
  StudentRecord.mk "Adams, Amy" "100" 3 "CS" "Senior" 90 "Yes" "amy@u.edu"
    "F" "Yes"

def rowB : StudentRecord :=
  StudentRecord.mk "Baker, Bob" "200" (Rat.mk' 7 2 (by norm_num) (by norm_num))
    "cs" "Junior" 60 "Yes" "bob@u.edu" "M" "No"

def rowC : StudentRecord :=
  StudentRecord.mk "Clark, Cal" "300" 4 "EE" "Senior" 80 "No" "cal@u.edu"
    "F" "Yes"

def rowD : StudentRecord :=
  StudentRecord.mk "Diaz, Dan" "400" (Rat.mk' 5 2 (by norm_num) (by norm_num))
    "CS" "Freshman" 20 "Yes" "dan@u.edu" "M" "No"

/-- The four sample rows in storage order. -/
def demoRows : List StudentRecord :=
  [rowA, rowB, rowC, rowD]

/-- The spec's boundary-inclusivity example: GPA between 3.0 and 4.0. -/
def rangeRecord : AwardCriteriaRecord :=
  AwardCriteriaRecord.mk "range"
    [("cum_gpa", Json.jobj [("$gte", Json.jint 3), ("$lte", Json.jint 4)])]
    0 []

/-- Characters that may follow a complete serialized value inside a
well-formed document: end of input, a separating comma, or a closing
bracket/brace. -/
def stopOk : List Char → Bool
  | [] => true
  | c :: _ => c = commaChar || c = rbrackChar || c = rbraceChar

theorem cmpv_eq_lt {α : Type} [LinearOrder α] (a b : α) :
    cmpv a b = Ordering.lt ↔ a < b := by
  unfold cmpv
  split_ifs with h1 h2 <;> simp_all

theorem cmpv_eq_gt {α : Type} [LinearOrder α] (a b : α) :
    cmpv a b = Ordering.gt ↔ b < a := by
  unfold cmpv
  split_ifs with h1 h2
  · simp only [false_iff]
    exact fun h => (lt_asymm h1) h
  · simp only [true_iff]
    exact h2
  · simp only [false_iff]
    exact h2

theorem cmpv_eq_eq {α : Type} [LinearOrder α] (a b : α) :
    cmpv a b = Ordering.eq ↔ a = b := by
  unfold cmpv
  split_ifs with h1 h2
  · simp only [false_iff]
    exact fun h => absurd h1 (by simp [h])
  · simp only [false_iff]
    exact fun h => absurd h2 (by simp [h])
  · simp only [true_iff]
    exact le_antisymm (le_of_not_lt h2) (le_of_not_lt h1)

theorem lawful_cmpv {α : Type} [LinearOrder α] :
    LawfulCmp (fun a b : α => cmpv a b) := by
  refine ⟨?_, ?_, ?_⟩
  · intro a b
    rcases lt_trichotomy a b with h | h | h
    · rw [(cmpv_eq_lt a b).mpr h, (cmpv_eq_gt b a).mpr h]
      rfl
    · rw [(cmpv_eq_eq a b).mpr h, (cmpv_eq_eq b a).mpr h.symm]
      rfl
    · rw [(cmpv_eq_gt a b).mpr h, (cmpv_eq_lt b a).mpr h]
      rfl
  · intro a b c h
    rw [(cmpv_eq_eq a b).mp h]
  · intro a b c h1 h2
    exact (cmpv_eq_lt a c).mpr
      (lt_trans ((cmpv_eq_lt a b).mp h1) ((cmpv_eq_lt b c).mp h2))

theorem lawful_comap {α β : Type} {cmp : β → β → Ordering} (f : α → β)
    (h : LawfulCmp cmp) : LawfulCmp (fun a b => cmp (f a) (f b)) :=
  ⟨fun a b => h.symm (f a) (f b),
   fun a b c hab => h.eq_subst (f a) (f b) (f c) hab,
   fun a b c h1 h2 => h.lt_trans (f a) (f b) (f c) h1 h2⟩

theorem cmpChar_symm (a b : Char) : cmpChar a b = (cmpChar b a).swap :=
  (lawful_comap Char.toNat lawful_cmpv).symm a b


theorem cmpChars_cons (x y : Char) (xs ys : List Char) :
    cmpChars (x :: xs) (y :: ys) =
      match cmpChar x y with
      | Ordering.eq => cmpChars xs ys
      | o => o := rfl

theorem lawful_cmpChars : LawfulCmp cmpChars := by
  have hc : LawfulCmp cmpChar := lawful_comap Char.toNat lawful_cmpv
  refine ⟨?_, ?_, ?_⟩
  · intro a
    induction a with
    | nil => intro b; cases b <;> rfl
    | cons x xs ih =>
      intro b
      cases b with
      | nil => rfl
      | cons y ys =>
        rw [cmpChars_cons, cmpChars_cons, hc.symm x y]
        rcases e : cmpChar y x <;> simp [Ordering.swap, ih ys]
  · intro a
    induction a with
    | nil =>
      intro b c h
      cases b with
      | nil => rfl
      | cons y ys => simp [cmpChars] at h
    | cons x xs ih =>
      intro b c h
      cases b with
      | nil => simp [cmpChars] at h
      | cons y ys =>
        rw [cmpChars_cons] at h
        rcases e1 : cmpChar x y <;> rw [e1] at h
        · simp at h
        · cases c with
          | nil => rfl
          | cons z zs =>
            rw [cmpChars_cons, cmpChars_cons, hc.eq_subst x y z e1, ih ys zs h]
        · simp at h
  · intro a
    induction a with
    | nil =>
      intro b c h1 h2
      cases b with
      | nil => exact h2
      | cons y ys =>
        cases c with
        | nil => simp [cmpChars] at h2
        | cons z zs => rfl
    | cons x xs ih =>
      intro b c h1 h2
      cases b with
      | nil => simp [cmpChars] at h1
      | cons y ys =>
        cases c with
        | nil => simp [cmpChars] at h2
        | cons z zs =>
          rw [cmpChars_cons] at h1 h2 ⊢
          rcases e1 : cmpChar x y <;> rw [e1] at h1
          · rcases e2 : cmpChar y z <;> rw [e2] at h2
            · rw [hc.lt_trans x y z e1 e2]
            · have hxz : cmpChar x z = Ordering.lt := by
                rw [hc.symm x z, ← hc.eq_subst y z x e2, hc.symm y x, e1]
                rfl
              rw [hxz]
            · simp at h2
          · rcases e2 : cmpChar y z <;> rw [e2] at h2
            · rw [hc.eq_subst x y z e1, e2]
            · rw [hc.eq_subst x y z e1, e2]
              exact ih ys zs h1 h2
            · simp at h2
          · simp at h1

theorem lawful_const_eq {α : Type} :
    LawfulCmp (fun _ _ : α => Ordering.eq) :=
  ⟨fun _ _ => rfl, fun _ _ _ _ => rfl, fun _ _ _ h _ => by simp at h⟩

theorem lawful_swapCmp {α : Type} {cmp : α → α → Ordering}
    (h : LawfulCmp cmp) : LawfulCmp (fun a b => (cmp a b).swap) := by
  refine ⟨?_, ?_, ?_⟩
  · intro a b
    rw [h.symm a b, Ordering.swap_swap]
  · intro a b c hab
    have hab' : cmp a b = Ordering.eq := by
      rcases e : cmp a b <;> rw [e] at hab <;> simp_all [Ordering.swap]
    rw [h.eq_subst a b c hab']
  · intro a b c h1 h2
    have h1' : cmp a b = Ordering.gt := by
      rcases e : cmp a b <;> rw [e] at h1 <;> simp_all [Ordering.swap]
    have h2' : cmp b c = Ordering.gt := by
      rcases e : cmp b c <;> rw [e] at h2 <;> simp_all [Ordering.swap]
    have hba : cmp b a = Ordering.lt := by
      rw [h.symm b a, h1']
      rfl
    have hcb : cmp c b = Ordering.lt := by
      rw [h.symm c b, h2']
      rfl
    have hca : cmp c a = Ordering.lt := h.lt_trans c b a hcb hba
    rw [h.symm a c, hca]
    rfl

theorem lawful_lex {α : Type} {c1 c2 : α → α → Ordering}
    (h1 : LawfulCmp c1) (h2 : LawfulCmp c2) :
    LawfulCmp (fun a b =>
      match c1 a b with
      | Ordering.eq => c2 a b
      | o => o) := by
  refine ⟨?_, ?_, ?_⟩
  · intro a b
    rw [h1.symm a b]
    rcases e : c1 b a <;> simp [Ordering.swap, h2.symm a b]
  · intro a b c hab
    have he : c1 a b = Ordering.eq ∧ c2 a b = Ordering.eq := by
      rcases e : c1 a b <;> rw [e] at hab <;> simp_all
    rw [h1.eq_subst a b c he.1]
    rcases e : c1 b c <;> simp [h2.eq_subst a b c he.2]
  · intro a b c hab hbc
    rcases e1 : c1 a b <;> rw [e1] at hab
    · rcases e2 : c1 b c <;> rw [e2] at hbc
      · rw [h1.lt_trans a b c e1 e2]
      · have hxz : c1 a c = Ordering.lt := by
          rw [h1.symm a c, ← h1.eq_subst b c a e2, h1.symm b a, e1]
          rfl
        rw [hxz]
      · simp at hbc
    · rcases e2 : c1 b c <;> rw [e2] at hbc
      · rw [h1.eq_subst a b c e1, e2]
      · rw [h1.eq_subst a b c e1, e2]
        exact h2.lt_trans a b c hab hbc
      · simp at hbc
    · simp at hab

theorem lawful_sqlValueCmp (nocase : Bool) :
    LawfulCmp (SqlValue.cmp nocase) := by
  refine ⟨?_, ?_, ?_⟩
  · intro a b
    rcases a with qa | sa <;> rcases b with qb | sb
    · exact lawful_cmpv.symm qa qb
    · rfl
    · rfl
    · simp only [SqlValue.cmp]
      split_ifs
      · exact lawful_cmpChars.symm _ _
      · exact lawful_cmpChars.symm _ _
  · intro a b c hab
    rcases a with qa | sa <;> rcases b with qb | sb
    · have : qa = qb := (cmpv_eq_eq qa qb).mp hab
      subst this
      rfl
    · simp [SqlValue.cmp] at hab
    · simp [SqlValue.cmp] at hab
    · rcases c with qc | sc
      · rfl
      · simp only [SqlValue.cmp] at hab ⊢
        split_ifs at hab ⊢
        · exact lawful_cmpChars.eq_subst _ _ _ hab
        · exact lawful_cmpChars.eq_subst _ _ _ hab
  · intro a b c hab hbc
    rcases a with qa | sa <;> rcases b with qb | sb <;> rcases c with qc | sc <;>
      simp only [SqlValue.cmp] at hab hbc ⊢ <;>
        first
        | exact absurd hab (by decide)
        | exact absurd hbc (by decide)
        | skip
    · exact (cmpv_eq_lt qa qc).mpr
        (lt_trans ((cmpv_eq_lt qa qb).mp hab) ((cmpv_eq_lt qb qc).mp hbc))
    · split_ifs at hab hbc ⊢
      · exact lawful_cmpChars.lt_trans _ _ _ hab hbc
      · exact lawful_cmpChars.lt_trans _ _ _ hab hbc

theorem lawful_keyCmp (fd : String × Bool) : LawfulCmp (keyCmp fd) := by
  have hbase :
      LawfulCmp (fun a b : StudentRecord =>
        match fieldGetter fd.1 with
        | some g => SqlValue.cmp (fieldNocase fd.1) (g a) (g b)
        | none => Ordering.eq) := by
    rcases hg : fieldGetter fd.1 with _ | g
    · simp only [hg]
      exact lawful_const_eq
    · simp only [hg]
      exact lawful_comap g (lawful_sqlValueCmp (fieldNocase fd.1))
  rcases hd : fd.2
  · have : keyCmp fd = fun a b =>
        match fieldGetter fd.1 with
        | some g => SqlValue.cmp (fieldNocase fd.1) (g a) (g b)
        | none => Ordering.eq := by
      funext a b
      simp [keyCmp, hd]
    rw [this]
    exact hbase
  · have : keyCmp fd = fun a b =>
        (match fieldGetter fd.1 with
          | some g => SqlValue.cmp (fieldNocase fd.1) (g a) (g b)
          | none => Ordering.eq).swap := by
      funext a b
      simp [keyCmp, hd]
    rw [this]
    exact lawful_swapCmp hbase

theorem cmpRowsBy_cons (fd : String × Bool) (rest : List (String × Bool))
    (a b : StudentRecord) :
    cmpRowsBy (fd :: rest) a b =
      match keyCmp fd a b with
      | Ordering.eq => cmpRowsBy rest a b
      | o => o := rfl

theorem lawful_cmpRowsBy (keys : List (String × Bool)) :
    LawfulCmp (cmpRowsBy keys) := by
  induction keys with
  | nil => exact lawful_const_eq
  | cons fd rest ih => exact lawful_lex (lawful_keyCmp fd) ih

theorem LawfulCmp.le_trans {α : Type} {cmp : α → α → Ordering}
    (h : LawfulCmp cmp) {a b c : α} (hab : cmp a b ≠ Ordering.gt)
    (hbc : cmp b c ≠ Ordering.gt) : cmp a c ≠ Ordering.gt := by
  rcases e1 : cmp a b with _ | _ | _
  · rcases e2 : cmp b c with _ | _ | _
    · rw [h.lt_trans a b c e1 e2]
      simp
    · have : cmp a c = Ordering.lt := by
        rw [h.symm a c, ← h.eq_subst b c a e2, h.symm b a, e1]
        rfl
      rw [this]
      simp
    · exact absurd e2 hbc
  · rw [h.eq_subst a b c e1]
    exact hbc
  · exact absurd e1 hab

theorem LawfulCmp.le_total {α : Type} {cmp : α → α → Ordering}
    (h : LawfulCmp cmp) {a b : α} (hab : cmp a b = Ordering.gt) :
    cmp b a ≠ Ordering.gt := by
  rw [h.symm b a, hab]
  simp [Ordering.swap]

theorem insertBy_perm {α : Type} (ltb : α → α → Bool) (x : α) (l : List α) :
    (insertBy ltb x l).Perm (x :: l) := by
  induction l with
  | nil => exact List.Perm.refl _
  | cons y ys ih =>
    unfold insertBy
    split_ifs
    · exact (List.Perm.cons y ih).trans (List.Perm.swap x y ys)
    · exact List.Perm.refl _

theorem sortBy_perm {α : Type} (ltb : α → α → Bool) (l : List α) :
    (sortBy ltb l).Perm l := by
  induction l with
  | nil => exact List.Perm.refl _
  | cons x xs ih =>
    unfold sortBy
    exact (insertBy_perm ltb x (sortBy ltb xs)).trans (List.Perm.cons x ih)

theorem ordering_beq_iff (o p : Ordering) : (o == p) = true ↔ o = p := by
  cases o <;> cases p <;> decide

theorem insertBy_pairwise {α : Type} {cmp : α → α → Ordering}
    (hl : LawfulCmp cmp) (x : α) (l : List α)
    (h : l.Pairwise (fun a b => cmp a b ≠ Ordering.gt)) :
    (insertBy (fun a b => cmp a b == Ordering.lt) x l).Pairwise
      (fun a b => cmp a b ≠ Ordering.gt) := by
  induction l with
  | nil => simp [insertBy]
  | cons y ys ih =>
    rw [List.pairwise_cons] at h
    unfold insertBy
    split_ifs with hyx
    · rw [List.pairwise_cons]
      constructor
      · intro z hz
        rw [(insertBy_perm _ x ys).mem_iff] at hz
        rcases List.mem_cons.mp hz with hz | hz
        · rw [ordering_beq_iff (cmp y x) Ordering.lt] at hyx
          rw [hz, hyx]
          simp
        · exact h.1 z hz
      · exact ih h.2
    · rw [List.pairwise_cons, List.pairwise_cons]
      rw [ordering_beq_iff (cmp y x) Ordering.lt] at hyx
      have hxy : cmp x y ≠ Ordering.gt := by
        rcases e : cmp y x with _ | _ | _
        · exact absurd e hyx
        · rw [hl.symm x y, e]
          simp [Ordering.swap]
        · rw [hl.symm x y, e]
          simp [Ordering.swap]
      refine ⟨?_, h.1, h.2⟩
      intro z hz
      rcases List.mem_cons.mp hz with hz | hz
      · rw [hz]
        exact hxy
      · exact hl.le_trans hxy (h.1 z hz)

theorem sortBy_pairwise {α : Type} {cmp : α → α → Ordering}
    (hl : LawfulCmp cmp) (l : List α) :
    (sortBy (fun a b => cmp a b == Ordering.lt) l).Pairwise
      (fun a b => cmp a b ≠ Ordering.gt) := by
  induction l with
  | nil => simp [sortBy]
  | cons x xs ih =>
    unfold sortBy
    exact insertBy_pairwise hl x _ ih

theorem sortBy_of_ltb_false {α : Type} {ltb : α → α → Bool}
    (h : ∀ a b, ltb a b = false) (l : List α) : sortBy ltb l = l := by
  induction l with
  | nil => rfl
  | cons x xs ih =>
    unfold sortBy
    rw [ih]
    cases xs with
    | nil => rfl
    | cons y ys =>
      unfold insertBy
      rw [h y x]
      simp

theorem sortRows_nil_keys (rows : List StudentRecord) :
    sortRows [] rows = rows := by
  unfold sortRows
  exact sortBy_of_ltb_false (fun a b => rfl) rows

theorem foldl_append_preds {β : Type} (g : β → List Pred) (l : List β)
    (acc : List Pred) :
    l.foldl (fun acc kv => acc ++ g kv) acc = acc ++ (l.map g).flatten := by
  induction l generalizing acc with
  | nil => simp
  | cons x xs ih =>
    simp only [List.foldl_cons, List.map_cons, List.flatten_cons, ih,
      List.append_assoc]

theorem compileOps_eq_flatten (field : String) (ops : List (String × Json)) :
    compileOps field ops = (ops.map (tokenPreds field)).flatten := by
  unfold compileOps
  have hstep : (fun (acc : List Pred) (kv : String × Json) =>
      if kv.1 = "$in" then acc ++ [Pred.isin field kv.2.toSqlList]
      else if kv.1 = "$nin" then acc ++ [Pred.notin field kv.2.toSqlList]
      else if kv.1 = "$gte" then acc ++ [Pred.gte field kv.2.toSqlValue]
      else if kv.1 = "$gt" then acc ++ [Pred.gt field kv.2.toSqlValue]
      else if kv.1 = "$lte" then acc ++ [Pred.lte field kv.2.toSqlValue]
      else if kv.1 = "$lt" then acc ++ [Pred.lt field kv.2.toSqlValue]
      else if kv.1 = "$eq" then acc ++ [Pred.eq field kv.2.toSqlValue]
      else if kv.1 = "$ne" then acc ++ [Pred.ne field kv.2.toSqlValue]
      else acc) =
      fun acc kv => acc ++ tokenPreds field kv := by
    funext acc kv
    unfold tokenPreds
    split_ifs <;> simp
  rw [hstep, foldl_append_preds]
  simp

theorem compileCriteria_eq_flatten (criteria : List (String × Json)) :
    compileCriteria criteria = (criteria.map entryPreds).flatten := by
  unfold compileCriteria
  have hstep : (fun (acc : List Pred) (fi : String × Json) =>
      match fi.2 with
      | Json.jobj ops => acc ++ compileOps fi.1 ops
      | item => acc ++ [Pred.eq fi.1 item.toSqlValue]) =
      fun acc fi => acc ++ entryPreds fi := by
    funext acc fi
    unfold entryPreds
    rcases fi with ⟨f, v⟩
    cases v <;> rfl
  rw [hstep, foldl_append_preds]
  simp

theorem ordering_match_self (o : Ordering) :
    (match o with
      | Ordering.eq => Ordering.eq
      | x => x) = o := by
  cases o <;> rfl

theorem execQuery_no_clauses (rows : List StudentRecord) :
    execQuery (SqlQuery.mk [] [] none) rows = Except.ok rows := by
  unfold execQuery
  simp [sortRows_nil_keys, applyLimit]

theorem tokenPreds_nil (field : String) (kv : String × Json)
    (hm : kv.1 ∉ recognizedTokens) : tokenPreds field kv = [] := by
  unfold tokenPreds
  split_ifs with h1 h2 h3 h4 h5 h6 h7 h8
  · exact absurd (by rw [h1]; decide) hm
  · exact absurd (by rw [h2]; decide) hm
  · exact absurd (by rw [h3]; decide) hm
  · exact absurd (by rw [h4]; decide) hm
  · exact absurd (by rw [h5]; decide) hm
  · exact absurd (by rw [h6]; decide) hm
  · exact absurd (by rw [h7]; decide) hm
  · exact absurd (by rw [h8]; decide) hm
  · rfl

/-- C7: an empty criteria mapping compiles to the match-everything query:
with no sort and no limit the criteria path returns every stored row in
storage order (so no implicit GPA ordering is applied on that path), while
the separate `select_all_students` path returns the rows ordered by
cumulative GPA descending. -/
theorem c7_empty_criteria_and_gpa_default :
    (∀ (awardName : String) (rows : List StudentRecord),
      select_students_by_criteria (AwardCriteriaRecord.mk awardName [] 0 [])
        rows = Except.ok rows) ∧
    (∀ rows, select_all_students rows = sortRows [("cum_gpa", true)] rows) ∧
    (∀ rows, (select_all_students rows).Perm rows) ∧
    (∀ rows, (select_all_students rows).Pairwise
      (fun a b => b.cum_gpa ≤ a.cum_gpa)) := by
  have hkey : ∀ a b : StudentRecord,
      keyCmp ("cum_gpa", true) a b = (cmpv a.cum_gpa b.cum_gpa).swap :=
    fun a b => rfl
  have hrows : ∀ a b : StudentRecord,
      cmpRowsBy [("cum_gpa", true)] a b = (cmpv a.cum_gpa b.cum_gpa).swap := by
    intro a b
    rw [cmpRowsBy_cons, hkey]
    exact ordering_match_self _
  refine ⟨?_, fun rows => rfl, ?_, ?_⟩
  · intro awardName rows
    exact execQuery_no_clauses rows
  · intro rows
    exact sortBy_perm _ rows
  · intro rows
    have hp := sortBy_pairwise (lawful_cmpRowsBy [("cum_gpa", true)]) rows
    refine List.Pairwise.imp ?_ hp
    intro a b hab
    rw [hrows a b] at hab
    by_contra hlt
    rw [not_le] at hlt
    exact hab (by rw [(cmpv_eq_lt a.cum_gpa b.cum_gpa).mpr hlt]; rfl)

/-- C4: an operator token outside the eight recognised ones is silently
dropped by the compiler — no error, no predicate — and nothing else is
dropped: compilation is unchanged by removing exactly the unrecognized
entries; a criteria entry whose operator document contains only unrecognized
tokens therefore constrains nothing and the query returns every row. -/
theorem c4_unrecognized_ops_ignored :
    (∀ (field : String) (ops : List (String × Json)),
      compileOps field ops =
        compileOps field
          (ops.filter (fun kv => kv.1 ∈ recognizedTokens))) ∧
    (∀ (field : String) (ops : List (String × Json)),
      (∀ kv ∈ ops, kv.1 ∉ recognizedTokens) → compileOps field ops = []) ∧
    (∀ (awardName field : String) (ops : List (String × Json))
        (rows : List StudentRecord),
      (∀ kv ∈ ops, kv.1 ∉ recognizedTokens) →
        select_students_by_criteria
          (AwardCriteriaRecord.mk awardName [(field, Json.jobj ops)] 0 [])
          rows = Except.ok rows) := by
  have hfil : ∀ (field : String) (ops : List (String × Json)),
      compileOps field ops =
        compileOps field (ops.filter (fun kv => kv.1 ∈ recognizedTokens)) := by
    intro field ops
    rw [compileOps_eq_flatten, compileOps_eq_flatten]
    induction ops with
    | nil => rfl
    | cons kv rest ih =>
      by_cases hm : kv.1 ∈ recognizedTokens
      · simp [List.filter_cons, hm, ih]
      · simp [List.filter_cons, hm, ih, tokenPreds_nil field kv hm]
  have hnil : ∀ (field : String) (ops : List (String × Json)),
      (∀ kv ∈ ops, kv.1 ∉ recognizedTokens) → compileOps field ops = [] := by
    intro field ops h
    rw [compileOps_eq_flatten]
    induction ops with
    | nil => rfl
    | cons kv rest ih =>
      simp only [List.map_cons, List.flatten_cons,
        tokenPreds_nil field kv (h kv (List.mem_cons_self kv rest)),
        List.nil_append]
      exact ih (fun x hx => h x (List.mem_cons_of_mem kv hx))
  refine ⟨hfil, hnil, ?_⟩
  intro awardName field ops rows h
  have hb : buildQuery
      (AwardCriteriaRecord.mk awardName [(field, Json.jobj ops)] 0 []) =
      SqlQuery.mk [] [] none := by
    unfold buildQuery
    rw [compileCriteria_eq_flatten]
    simp [entryPreds, hnil field ops h]
  unfold select_students_by_criteria
  rw [hb]
  exact execQuery_no_clauses rows

/-- C4 witness: a `$regex` operator document is ignored and the query
returns all four sample rows. -/
theorem c4_unrecognized_ops_ignored_witness :
    select_students_by_criteria
      (AwardCriteriaRecord.mk "w"
        [("cum_gpa", Json.jobj [("$regex", Json.jint 1)])] 0 [])
      demoRows = Except.ok demoRows :=
  c4_unrecognized_ops_ignored.2.2 "w" "cum_gpa" [("$regex", Json.jint 1)]
    demoRows (by decide)

/-- C3: the plain-scalar shorthand `field: v` and the operator form
`field: ($eq: v)` compile to the same equality predicate, so they return
identical result lists on every dataset, for every sort and limit. -/
theorem c3_scalar_shorthand (f : String) (v : Json)
    (hv : ∀ ops, v ≠ Json.jobj ops) (awardName : String) (lim : ℤ)
    (srt : List (String × ℤ)) (rows : List StudentRecord) :
    select_students_by_criteria (AwardCriteriaRecord.mk awardName [(f, v)] lim srt)
      rows =
      select_students_by_criteria
        (AwardCriteriaRecord.mk awardName [(f, Json.jobj [("$eq", v)])] lim srt)
        rows := by
  have h1 : compileCriteria [(f, v)] = [Pred.eq f v.toSqlValue] := by
    cases v with
    | jobj ops => exact absurd rfl (hv ops)
    | jnull => rfl
    | jbool b => rfl
    | jint n => rfl
    | jstr s => rfl
    | jarr items => rfl
  have h2 : compileCriteria [(f, Json.jobj [("$eq", v)])] =
      [Pred.eq f v.toSqlValue] := by
    rw [compileCriteria_eq_flatten]
    simp [entryPreds, compileOps_eq_flatten, tokenPreds]
  unfold select_students_by_criteria
  have hb : buildQuery (AwardCriteriaRecord.mk awardName [(f, v)] lim srt) =
      buildQuery
        (AwardCriteriaRecord.mk awardName [(f, Json.jobj [("$eq", v)])] lim
          srt) := by
    unfold buildQuery
    rw [h1, h2]
  rw [hb]

/-- C3 witness at `major = "CS"` over the sample rows. -/
theorem c3_scalar_shorthand_witness :
    select_students_by_criteria
      (AwardCriteriaRecord.mk "w" [("major", Json.jstr "CS")] 0 []) demoRows =
      select_students_by_criteria
        (AwardCriteriaRecord.mk "w"
          [("major", Json.jobj [("$eq", Json.jstr "CS")])] 0 []) demoRows :=
  c3_scalar_shorthand "major" (Json.jstr "CS")
    (fun _ h => Json.noConfusion h) "w" 0 [] demoRows

/-- C5: sort keys are applied in list order — the first key decides and each
later key only breaks ties of the earlier ones — with direction `-1`
compiling to the descending (swapped) comparison of the column's values and
every other integer to the ascending one; a criteria query with a sort
specification over schema columns returns a permutation of the stored rows
that is sorted under the induced lexicographic comparison. -/
theorem c5_sort_order :
    (∀ (fd : String × Bool) (rest : List (String × Bool))
        (a b : StudentRecord), keyCmp fd a b = Ordering.eq →
        cmpRowsBy (fd :: rest) a b = cmpRowsBy rest a b) ∧
    (∀ (fd : String × Bool) (rest : List (String × Bool))
        (a b : StudentRecord), keyCmp fd a b ≠ Ordering.eq →
        cmpRowsBy (fd :: rest) a b = keyCmp fd a b) ∧
    (∀ (f : String) (d : ℤ) (g : StudentRecord → SqlValue)
        (a b : StudentRecord), fieldGetter f = some g → d = -1 →
        keyCmp (f, d = -1) a b =
          (SqlValue.cmp (fieldNocase f) (g a) (g b)).swap) ∧
    (∀ (f : String) (d : ℤ) (g : StudentRecord → SqlValue)
        (a b : StudentRecord), fieldGetter f = some g → d ≠ -1 →
        keyCmp (f, d = -1) a b = SqlValue.cmp (fieldNocase f) (g a) (g b)) ∧
    (∀ (awardName : String) (srt : List (String × ℤ))
        (rows : List StudentRecord),
      (∀ fd ∈ srt, validField fd.1 = true) →
      ∃ out,
        select_students_by_criteria
          (AwardCriteriaRecord.mk awardName [] 0 srt) rows = Except.ok out ∧
        out.Perm rows ∧
        out.Pairwise (fun a b =>
          cmpRowsBy (srt.map (fun fo => (fo.1, fo.2 = -1))) a b ≠
            Ordering.gt)) := by
  refine ⟨?_, ?_, ?_, ?_, ?_⟩
  · intro fd rest a b h
    rw [cmpRowsBy_cons, h]
  · intro fd rest a b h
    rw [cmpRowsBy_cons]
    rcases e : keyCmp fd a b <;> simp_all
  · intro f d g a b hg hd
    unfold keyCmp
    simp [hg, hd]
  · intro f d g a b hg hd
    unfold keyCmp
    simp [hg, hd]
  · intro awardName srt rows _hvalid
    refine ⟨sortRows (srt.map (fun fo => (fo.1, fo.2 = -1))) rows, ?_, ?_, ?_⟩
    · unfold select_students_by_criteria execQuery
      simp [buildQuery, compileCriteria, applyLimit]
    · exact sortBy_perm _ rows
    · exact sortBy_pairwise (lawful_cmpRowsBy _) rows

/-- C5 witness: descending GPA with ascending name tie-break over the sample
rows. -/
theorem c5_sort_order_witness :
    ∃ out,
      select_students_by_criteria
        (AwardCriteriaRecord.mk "w" [] 0 [("cum_gpa", -1), ("name", 1)])
        demoRows = Except.ok out ∧
      out.Perm demoRows ∧
      out.Pairwise (fun a b =>
        cmpRowsBy
          ([("cum_gpa", -1), ("name", 1)].map
            (fun fo : String × ℤ => (fo.1, fo.2 = -1))) a b ≠
          Ordering.gt) :=
  c5_sort_order.2.2.2.2 "w" [("cum_gpa", -1), ("name", 1)] demoRows
    (by decide)

/-- C6: a positive limit L truncates the sorted, filtered result to its
first L rows, while limit 0 (also how the adapter sees an absent/None limit,
since `if record.limit:` is falsy for both) returns every matching row. -/
theorem c6_limit (awardName : String) (crit : List (String × Json))
    (srt : List (String × ℤ)) (rows : List StudentRecord) (L : ℤ)
    (l0 : List StudentRecord)
    (h0 : select_students_by_criteria
      (AwardCriteriaRecord.mk awardName crit 0 srt) rows = Except.ok l0) :
    (0 < L →
      select_students_by_criteria
        (AwardCriteriaRecord.mk awardName crit L srt) rows =
        Except.ok (l0.take L.toNat)) ∧
    l0.Perm (rows.filter (fun r => (compileCriteria crit).all (evalPred r))) := by
  unfold select_students_by_criteria execQuery at h0 ⊢
  have h0' : sortRows (srt.map (fun fo => (fo.1, fo.2 = -1)))
      (rows.filter (fun r => (compileCriteria crit).all (evalPred r))) =
      l0 := by
    simpa [buildQuery, applyLimit] using h0
  constructor
  · intro hL
    simp only [buildQuery]
    rw [if_neg (by omega : ¬ L = 0)]
    simp only [applyLimit]
    rw [if_neg (by omega : ¬ L < 0), h0']
  · rw [← h0']
    exact sortBy_perm _ _

/-- C6 witness: limit 2 over the GPA-descending sample query returns the top
two rows of the unlimited result. -/
theorem c6_limit_witness :
    (0 < (2 : ℤ) →
      select_students_by_criteria
        (AwardCriteriaRecord.mk "w" [] 2 [("cum_gpa", -1)]) demoRows =
        Except.ok ([rowC, rowB, rowA, rowD].take (2 : ℤ).toNat)) ∧
    ([rowC, rowB, rowA, rowD] : List StudentRecord).Perm
      (demoRows.filter (fun r => (compileCriteria []).all (evalPred r))) :=
  c6_limit "w" [] [("cum_gpa", -1)] demoRows 2 [rowC, rowB, rowA, rowD]
    (by decide)

theorem ordering_bne_iff (o p : Ordering) : (o != p) = true ↔ o ≠ p := by
  cases o <;> cases p <;> decide

/-- C2: each of the eight operator tokens compiles to exactly its comparison
predicate (membership, non-membership, equality, inequality, strict and
inclusive order); operators under one field and entries across fields
combine by logical AND; the order comparisons have SQLite's semantics (shown
on the `cum_gpa` column against the rational field value), with `$gte`/`$lte`
boundary-inclusive — concretely, the range criteria keeps the sample rows
with GPA exactly 3 and exactly 4. -/
theorem c2_operator_semantics :
    (∀ (f : String) (vs : List Json),
      compileOps f [("$in", Json.jarr vs)] =
        [Pred.isin f (vs.map Json.toSqlValue)]) ∧
    (∀ (f : String) (vs : List Json),
      compileOps f [("$nin", Json.jarr vs)] =
        [Pred.notin f (vs.map Json.toSqlValue)]) ∧
    (∀ (f : String) (v : Json),
      compileOps f [("$eq", v)] = [Pred.eq f v.toSqlValue]) ∧
    (∀ (f : String) (v : Json),
      compileOps f [("$ne", v)] = [Pred.ne f v.toSqlValue]) ∧
    (∀ (f : String) (v : Json),
      compileOps f [("$gt", v)] = [Pred.gt f v.toSqlValue]) ∧
    (∀ (f : String) (v : Json),
      compileOps f [("$gte", v)] = [Pred.gte f v.toSqlValue]) ∧
    (∀ (f : String) (v : Json),
      compileOps f [("$lt", v)] = [Pred.lt f v.toSqlValue]) ∧
    (∀ (f : String) (v : Json),
      compileOps f [("$lte", v)] = [Pred.lte f v.toSqlValue]) ∧
    (∀ (f : String) (ops1 ops2 : List (String × Json)),
      compileOps f (ops1 ++ ops2) = compileOps f ops1 ++ compileOps f ops2) ∧
    (∀ (c1 c2 : List (String × Json)),
      compileCriteria (c1 ++ c2) = compileCriteria c1 ++ compileCriteria c2) ∧
    (∀ (ps1 ps2 : List Pred) (r : StudentRecord),
      (ps1 ++ ps2).all (evalPred r) =
        (ps1.all (evalPred r) && ps2.all (evalPred r))) ∧
    (∀ (r : StudentRecord) (q : ℚ),
      (evalPred r (Pred.gte "cum_gpa" (SqlValue.num q)) = true) ↔
        q ≤ r.cum_gpa) ∧
    (∀ (r : StudentRecord) (q : ℚ),
      (evalPred r (Pred.gt "cum_gpa" (SqlValue.num q)) = true) ↔
        q < r.cum_gpa) ∧
    (∀ (r : StudentRecord) (q : ℚ),
      (evalPred r (Pred.lte "cum_gpa" (SqlValue.num q)) = true) ↔
        r.cum_gpa ≤ q) ∧
    (∀ (r : StudentRecord) (q : ℚ),
      (evalPred r (Pred.lt "cum_gpa" (SqlValue.num q)) = true) ↔
        r.cum_gpa < q) ∧
    (∀ (r : StudentRecord) (q : ℚ),
      (evalPred r (Pred.eq "cum_gpa" (SqlValue.num q)) = true) ↔
        r.cum_gpa = q) ∧
    (∀ (r : StudentRecord) (q : ℚ),
      (evalPred r (Pred.ne "cum_gpa" (SqlValue.num q)) = true) ↔
        r.cum_gpa ≠ q) ∧
    (∀ (r : StudentRecord) (qs : List ℚ),
      (evalPred r (Pred.isin "cum_gpa" (qs.map SqlValue.num)) = true) ↔
        r.cum_gpa ∈ qs) ∧
    (∀ (r : StudentRecord) (qs : List ℚ),
      (evalPred r (Pred.notin "cum_gpa" (qs.map SqlValue.num)) = true) ↔
        r.cum_gpa ∉ qs) ∧
    (select_students_by_criteria rangeRecord demoRows =
        Except.ok [rowA, rowB, rowC] ∧
      rowA.cum_gpa = 3 ∧ rowC.cum_gpa = 4) := by
  refine ⟨fun f vs => rfl, fun f vs => rfl, fun f v => rfl, fun f v => rfl,
    fun f v => rfl, fun f v => rfl, fun f v => rfl, fun f v => rfl,
    ?_, ?_, ?_, ?_, ?_, ?_, ?_, ?_, ?_, ?_, ?_, ?_⟩
  · intro f ops1 ops2
    rw [compileOps_eq_flatten, compileOps_eq_flatten, compileOps_eq_flatten]
    simp
  · intro c1 c2
    rw [compileCriteria_eq_flatten, compileCriteria_eq_flatten,
      compileCriteria_eq_flatten]
    simp
  · intro ps1 ps2 r
    exact List.all_append
  · intro r q
    have he : evalPred r (Pred.gte "cum_gpa" (SqlValue.num q)) =
        (cmpv q r.cum_gpa != Ordering.gt) := rfl
    rw [he, ordering_bne_iff]
    constructor
    · intro h
      by_contra hq
      rw [not_le] at hq
      exact h ((cmpv_eq_gt q r.cum_gpa).mpr hq)
    · intro h hgt
      exact absurd ((cmpv_eq_gt q r.cum_gpa).mp hgt) (not_lt.mpr h)
  · intro r q
    have he : evalPred r (Pred.gt "cum_gpa" (SqlValue.num q)) =
        (cmpv q r.cum_gpa == Ordering.lt) := rfl
    rw [he, ordering_beq_iff]
    exact cmpv_eq_lt q r.cum_gpa
  · intro r q
    have he : evalPred r (Pred.lte "cum_gpa" (SqlValue.num q)) =
        (cmpv r.cum_gpa q != Ordering.gt) := rfl
    rw [he, ordering_bne_iff]
    constructor
    · intro h
      by_contra hq
      rw [not_le] at hq
      exact h ((cmpv_eq_gt r.cum_gpa q).mpr hq)
    · intro h hgt
      exact absurd ((cmpv_eq_gt r.cum_gpa q).mp hgt) (not_lt.mpr h)
  · intro r q
    have he : evalPred r (Pred.lt "cum_gpa" (SqlValue.num q)) =
        (cmpv r.cum_gpa q == Ordering.lt) := rfl
    rw [he, ordering_beq_iff]
    exact cmpv_eq_lt r.cum_gpa q
  · intro r q
    have he : evalPred r (Pred.eq "cum_gpa" (SqlValue.num q)) =
        (cmpv r.cum_gpa q == Ordering.eq) := rfl
    rw [he, ordering_beq_iff]
    exact cmpv_eq_eq r.cum_gpa q
  · intro r q
    have he : evalPred r (Pred.ne "cum_gpa" (SqlValue.num q)) =
        (!(cmpv r.cum_gpa q == Ordering.eq)) := rfl
    rw [he]
    rw [Bool.not_eq_true']
    rw [← Bool.not_eq_true (cmpv r.cum_gpa q == Ordering.eq)]
    rw [ordering_beq_iff]
    exact not_congr (cmpv_eq_eq r.cum_gpa q)
  · intro r qs
    have he : evalPred r (Pred.isin "cum_gpa" (qs.map SqlValue.num)) =
        (qs.map SqlValue.num).any
          (fun w => SqlValue.eqv false (SqlValue.num r.cum_gpa) w) := rfl
    rw [he]
    simp only [List.any_eq_true]
    constructor
    · rintro ⟨x, hx, hq⟩
      rcases List.mem_map.mp hx with ⟨q', hq', hxq⟩
      rw [← hxq] at hq
      have h1 : (cmpv r.cum_gpa q' == Ordering.eq) = true := hq
      rw [ordering_beq_iff] at h1
      rw [(cmpv_eq_eq r.cum_gpa q').mp h1]
      exact hq'
    · intro h
      refine ⟨SqlValue.num r.cum_gpa, List.mem_map.mpr ⟨r.cum_gpa, h, rfl⟩, ?_⟩
      show (cmpv r.cum_gpa r.cum_gpa == Ordering.eq) = true
      rw [ordering_beq_iff]
      exact (cmpv_eq_eq r.cum_gpa r.cum_gpa).mpr rfl
  · intro r qs
    have he : evalPred r (Pred.notin "cum_gpa" (qs.map SqlValue.num)) =
        (!((qs.map SqlValue.num).any
          (fun w => SqlValue.eqv false (SqlValue.num r.cum_gpa) w))) := rfl
    rw [he, Bool.not_eq_true']
    rw [← Bool.not_eq_true]
    refine not_congr ?_
    simp only [List.any_eq_true]
    constructor
    · rintro ⟨x, hx, hq⟩
      rcases List.mem_map.mp hx with ⟨q', hq', hxq⟩
      rw [← hxq] at hq
      have h1 : (cmpv r.cum_gpa q' == Ordering.eq) = true := hq
      rw [ordering_beq_iff] at h1
      rw [(cmpv_eq_eq r.cum_gpa q').mp h1]
      exact hq'
    · intro h
      refine ⟨SqlValue.num r.cum_gpa, List.mem_map.mpr ⟨r.cum_gpa, h, rfl⟩, ?_⟩
      show (cmpv r.cum_gpa r.cum_gpa == Ordering.eq) = true
      rw [ordering_beq_iff]
      exact (cmpv_eq_eq r.cum_gpa r.cum_gpa).mpr rfl
  · refine ⟨by decide, rfl, rfl⟩

/-- C8: when `file_is_open` detects the import target as an existing table,
`student_csv_to_table` raises `FileIsOpenError` (the spec's
`FileAlreadyOpenError`) before setting the active table name or dropping,
creating or writing anything: the returned state is exactly the input
state. -/
theorem c8_import_rejected (st : AdapterState) (filePath : String)
    (csv : List StudentRecord) (h : file_is_open st filePath = true) :
    student_csv_to_table st filePath csv =
      (st, some (ScholarlyError.fileIsOpen filePath)) ∧
    (ScholarlyError.fileIsOpen filePath).message =
      "File '" ++ filePath ++ "' is already open." := by
  constructor
  · unfold student_csv_to_table
    rw [if_pos h]
  · rfl

/-- C8 witness: re-importing `data.csv` while a table of that name exists is
rejected with the state unchanged. -/
theorem c8_import_rejected_witness :
    student_csv_to_table
      (AdapterState.mk [("data.csv", [rowA])] [] true (some "data.csv"))
      "data.csv" [rowB] =
      (AdapterState.mk [("data.csv", [rowA])] [] true (some "data.csv"),
        some (ScholarlyError.fileIsOpen "data.csv")) ∧
    (ScholarlyError.fileIsOpen "data.csv").message =
      "File '" ++ "data.csv" ++ "' is already open." :=
  c8_import_rejected
    (AdapterState.mk [("data.csv", [rowA])] [] true (some "data.csv"))
    "data.csv" [rowB] (by decide)

/-- C10: selecting award criteria by a name that matches no stored row
(under the name column's NOCASE collation) returns `None` rather than
raising; the read leaves the store untouched (the model of a `SELECT` is a
pure function of the state). -/
theorem c10_select_missing_award (st : AdapterState) (awardName : String)
    (hcreated : st.awardTableCreated = true)
    (habsent : ∀ row ∈ st.awardRows,
      foldNocase row.name ≠ foldNocase awardName) :
    select_award_criteria st awardName = Except.ok none := by
  unfold select_award_criteria
  rw [hcreated]
  have hf : st.awardRows.find?
      (fun row => foldNocase row.name = foldNocase awardName) = none := by
    rw [List.find?_eq_none]
    intro row hrow
    simpa using habsent row hrow
  simp [hf]

/-- C10 witness: an empty award table answers `None` for any name. -/
theorem c10_select_missing_award_witness :
    select_award_criteria (AdapterState.mk [] [] true none) "Nobody" =
      Except.ok none :=
  c10_select_missing_award (AdapterState.mk [] [] true none) "Nobody" rfl
    (by simp)

theorem stripPre_self (ts rest : List Char) :
    stripPre ts (ts ++ rest) = some rest := by
  induction ts with
  | nil => rfl
  | cons t ts ih =>
    show (if t = t then stripPre ts (ts ++ rest) else none) = some rest
    rw [if_pos rfl]
    exact ih

theorem string_mk_data (s : String) : String.mk s.data = s := by
  cases s
  rfl

theorem natChars_ne_nil (n : ℕ) : natChars n ≠ [] := by
  unfold natChars
  split_ifs with h
  · simp
  · simp [Nat.digits_ne_nil_iff_ne_zero, h]

theorem natChars_all_digits (n : ℕ) :
    ∀ c ∈ natChars n, isDigitChar c = true := by
  unfold natChars
  split_ifs with h
  · intro c hc
    simp only [List.mem_singleton] at hc
    rw [hc]
    decide
  · intro c hc
    rw [List.mem_reverse] at hc
    rcases List.mem_map.mp hc with ⟨d, hd, hcd⟩
    have hlt : d < 10 := Nat.digits_lt_base (by norm_num) hd
    rw [← hcd]
    interval_cases d <;> decide

theorem digitVal_ofNat (d : ℕ) (h : d < 10) :
    digitVal (Char.ofNat (48 + d)) = d := by
  interval_cases d <;> decide

theorem foldl_digits (ds : List ℕ) (hds : ∀ d ∈ ds, d < 10) (a : ℕ) :
    ((ds.map (fun d => Char.ofNat (48 + d))).reverse).foldl
      (fun acc c => acc * 10 + digitVal c) a =
      a * 10 ^ ds.length + Nat.ofDigits 10 ds := by
  induction ds generalizing a with
  | nil => simp
  | cons d rest ih =>
    have hd : d < 10 := hds d (List.mem_cons_self _ _)
    have hrest : ∀ x ∈ rest, x < 10 :=
      fun x hx => hds x (List.mem_cons_of_mem _ hx)
    simp only [List.map_cons, List.reverse_cons, List.foldl_append,
      List.foldl_cons, List.foldl_nil]
    rw [ih hrest a, digitVal_ofNat d hd, Nat.ofDigits_cons, List.length_cons,
      pow_succ]
    ring

theorem takeWhile_all_append {p : Char → Bool} (l1 l2 : List Char)
    (h1 : ∀ c ∈ l1, p c = true)
    (h2 : ∀ c cs, l2 = c :: cs → p c = false) :
    (l1 ++ l2).takeWhile p = l1 ∧ (l1 ++ l2).dropWhile p = l2 := by
  induction l1 with
  | nil =>
    cases l2 with
    | nil => simp
    | cons c cs =>
      have hc := h2 c cs rfl
      simp [List.takeWhile_cons, List.dropWhile_cons, hc]
  | cons x xs ih =>
    have hx : p x = true := h1 x (List.mem_cons_self _ _)
    have hxs := ih (fun c hc => h1 c (List.mem_cons_of_mem _ hc))
    simp [List.takeWhile_cons, List.dropWhile_cons, hx, hxs.1, hxs.2]

theorem parseNat_natChars (n : ℕ) (rest : List Char)
    (h2 : ∀ c cs, rest = c :: cs → isDigitChar c = false) :
    parseNat (natChars n ++ rest) = (n, rest) := by
  unfold parseNat
  have ht := takeWhile_all_append (natChars n) rest (natChars_all_digits n) h2
  rw [ht.1, ht.2]
  refine Prod.ext ?_ rfl
  show (natChars n).foldl (fun acc c => acc * 10 + digitVal c) 0 = n
  unfold natChars
  split_ifs with h
  · rw [h]
    decide
  · have := foldl_digits (Nat.digits 10 n)
      (fun d hd => Nat.digits_lt_base (by norm_num) hd) 0
    rw [this, Nat.ofDigits_digits]
    simp

theorem stop_not_digit (rest : List Char) (h : stopOk rest = true) :
    ∀ c cs, rest = c :: cs → isDigitChar c = false := by
  intro c cs hrest
  rw [hrest] at h
  unfold stopOk at h
  simp only [Bool.or_eq_true, decide_eq_true_eq] at h
  rcases h with (h | h) | h <;> rw [h] <;> decide

theorem isDigitChar_ne (c : Char) (h : isDigitChar c = true) :
    c ≠ 'n' ∧ c ≠ 't' ∧ c ≠ 'f' ∧ c ≠ quoteChar ∧ c ≠ lbrackChar ∧
      c ≠ lbraceChar ∧ c ≠ minusChar ∧ c ≠ rbrackChar ∧ c ≠ rbraceChar := by
  unfold isDigitChar at h
  simp only [Bool.and_eq_true, decide_eq_true_eq] at h
  refine ⟨?_, ?_, ?_, ?_, ?_, ?_, ?_, ?_, ?_⟩ <;> intro he <;> rw [he] at h <;>
    revert h <;> decide

theorem escChar_quote : escChar quoteChar = [backslashChar, quoteChar] := by
  unfold escChar
  rw [if_pos rfl]

theorem escChar_backslash :
    escChar backslashChar = [backslashChar, backslashChar] := by
  unfold escChar
  rw [if_neg (by decide), if_pos rfl]

theorem escChar_other (c : Char) (h1 : c ≠ quoteChar)
    (h2 : c ≠ backslashChar) : escChar c = [c] := by
  unfold escChar
  rw [if_neg h1, if_neg h2]

theorem parseStrBody_esc (cs rest : List Char) :
    parseStrBody ((cs.map escChar).flatten ++ (quoteChar :: rest)) =
      some (cs, rest) := by
  induction cs with
  | nil =>
    simp only [List.map_nil, List.flatten_nil, List.nil_append]
    cases rest with
    | nil =>
      unfold parseStrBody
      rw [if_pos rfl]
    | cons e r2 =>
      unfold parseStrBody
      rw [if_pos rfl]
  | cons c cc ih =>
    by_cases h1 : c = quoteChar
    · rw [h1]
      simp only [List.map_cons, List.flatten_cons, escChar_quote,
        List.cons_append, List.nil_append, List.append_assoc]
      unfold parseStrBody
      rw [if_neg (by decide), if_pos rfl, if_pos (by decide), ih]
      rfl
    · by_cases h2 : c = backslashChar
      · rw [h2]
        simp only [List.map_cons, List.flatten_cons, escChar_backslash,
          List.cons_append, List.nil_append, List.append_assoc]
        unfold parseStrBody
        rw [if_neg (by decide), if_pos rfl, if_pos (by decide), ih]
        rfl
      · simp only [List.map_cons, List.flatten_cons, escChar_other c h1 h2,
          List.cons_append, List.singleton_append, List.nil_append,
          List.append_assoc]
        rcases htail : (cc.map escChar).flatten ++ (quoteChar :: rest) with
          _ | ⟨e, rest2⟩
        · exact absurd htail (by simp)
        · rw [htail] at ih
          unfold parseStrBody
          rw [if_neg h1, if_neg h2, ih]
          rfl

theorem parseVal_intChars (fuel : ℕ) (n : ℤ) (rest : List Char)
    (hstop : stopOk rest = true) :
    parseVal (fuel + 1) (intChars n ++ rest) = some (Json.jint n, rest) := by
  have hnd := stop_not_digit rest hstop
  cases n with
  | ofNat m =>
    show parseVal (fuel + 1) (natChars m ++ rest) = _
    rcases hm : natChars m with _ | ⟨c, cs0⟩
    · exact absurd hm (natChars_ne_nil m)
    · have hcd : isDigitChar c = true :=
        natChars_all_digits m c (by rw [hm]; exact List.mem_cons_self _ _)
      have hne := isDigitChar_ne c hcd
      rw [List.cons_append]
      unfold parseVal
      rw [if_neg hne.1, if_neg hne.2.1, if_neg hne.2.2.1,
        if_neg hne.2.2.2.1, if_neg hne.2.2.2.2.1, if_neg hne.2.2.2.2.2.1,
        if_neg hne.2.2.2.2.2.2.1, if_pos hcd]
      rw [← List.cons_append, ← hm, parseNat_natChars m rest hnd]
      rfl
  | negSucc m =>
    show parseVal (fuel + 1)
      (minusChar :: (natChars (m + 1) ++ rest)) = _
    unfold parseVal
    rw [if_neg (by decide), if_neg (by decide), if_neg (by decide),
      if_neg (by decide), if_neg (by decide), if_neg (by decide), if_pos rfl]
    rcases hm : natChars (m + 1) with _ | ⟨c, cs0⟩
    · exact absurd hm (natChars_ne_nil _)
    · have hcd : isDigitChar c = true :=
        natChars_all_digits _ c (by rw [hm]; exact List.mem_cons_self _ _)
      rw [List.cons_append]
      rw [if_pos (show ((c :: (cs0 ++ rest)).head?.any isDigitChar) = true
        from by simp [hcd])]
      rw [← List.cons_append, ← hm, parseNat_natChars _ rest hnd]
      simp only [Option.some.injEq, Prod.mk.injEq, and_true, Json.jint.injEq]
      rw [Int.negSucc_eq]
      push_cast
      ring

theorem dumpChars_head (j : Json) :
    ∃ c cs, dumpChars j = c :: cs ∧ c ≠ rbrackChar ∧ c ≠ rbraceChar := by
  cases j with
  | jnull =>
    refine ⟨'n', "ull".data, ?_, by decide, by decide⟩
    rw [show dumpChars Json.jnull = "null".data from by simp [dumpChars]]
  | jbool b =>
    cases b with
    | false =>
      refine ⟨'f', "alse".data, ?_, by decide, by decide⟩
      rw [show dumpChars (Json.jbool false) = "false".data from by
        simp [dumpChars]]
    | true =>
      refine ⟨'t', "rue".data, ?_, by decide, by decide⟩
      rw [show dumpChars (Json.jbool true) = "true".data from by
        simp [dumpChars]]
  | jint n =>
    rw [show dumpChars (Json.jint n) = intChars n from by simp [dumpChars]]
    cases n with
    | ofNat m =>
      rw [show intChars (Int.ofNat m) = natChars m from rfl]
      rcases hm : natChars m with _ | ⟨c, cs0⟩
      · exact absurd hm (natChars_ne_nil m)
      · have hcd : isDigitChar c = true :=
          natChars_all_digits m c (by rw [hm]; exact List.mem_cons_self _ _)
        have hne := isDigitChar_ne c hcd
        exact ⟨c, cs0, rfl, hne.2.2.2.2.2.2.2.1, hne.2.2.2.2.2.2.2.2⟩
    | negSucc m =>
      exact ⟨minusChar, natChars (m + 1), rfl, by decide, by decide⟩
  | jstr s =>
    refine ⟨quoteChar, (s.data.map escChar).flatten ++ [quoteChar], ?_,
      by decide, by decide⟩
    simp [dumpChars, escString]
  | jarr items =>
    refine ⟨lbrackChar, dumpItems items ++ [rbrackChar], ?_, by decide,
      by decide⟩
    simp [dumpChars]
  | jobj fields =>
    refine ⟨lbraceChar, dumpFields fields ++ [rbraceChar], ?_, by decide,
      by decide⟩
    simp [dumpChars]

theorem dumpChars_length_pos (j : Json) : 1 ≤ (dumpChars j).length := by
  obtain ⟨c, cs, h, _, _⟩ := dumpChars_head j
  rw [h]
  simp

theorem escString_length (s : String) :
    (escString s).length = (s.data.map escChar).flatten.length + 2 := by
  unfold escString
  simp

theorem dumpFields_head (kv : String × Json) (fs : List (String × Json)) :
    ∃ t, dumpFields (kv :: fs) = quoteChar :: t := by
  rcases kv with ⟨k, v⟩
  cases fs with
  | nil =>
    refine ⟨((k.data.map escChar).flatten ++ [quoteChar]) ++
      (colonChar :: spaceChar :: dumpChars v), ?_⟩
    simp [dumpFields, escString]
  | cons kv2 fs2 =>
    refine ⟨((k.data.map escChar).flatten ++ [quoteChar]) ++
      (colonChar :: spaceChar ::
        (dumpChars v ++ (commaChar :: spaceChar :: dumpFields (kv2 :: fs2)))),
      ?_⟩
    simp [dumpFields, escString]

theorem stopOk_rbrack (r : List Char) : stopOk (rbrackChar :: r) = true := rfl

theorem stopOk_rbrace (r : List Char) : stopOk (rbraceChar :: r) = true := rfl

theorem stopOk_comma (r : List Char) : stopOk (commaChar :: r) = true := rfl

theorem parse_dump_all (fuel : ℕ) :
    (∀ (j : Json) (rest : List Char), (dumpChars j).length < fuel →
      stopOk rest = true →
      parseVal fuel (dumpChars j ++ rest) = some (j, rest)) ∧
    (∀ (l : List Json) (rest : List Char), l ≠ [] →
      (dumpItems l).length + 1 < fuel →
      parseItems fuel (dumpItems l ++ (rbrackChar :: rest)) =
        some (l, rest)) ∧
    (∀ (fl : List (String × Json)) (rest : List Char), fl ≠ [] →
      (dumpFields fl).length + 1 < fuel →
      parseFields fuel (dumpFields fl ++ (rbraceChar :: rest)) =
        some (fl, rest)) := by
  induction fuel with
  | zero =>
    exact ⟨fun j rest h _ => absurd h (by omega),
      fun l rest _ h => absurd h (by omega),
      fun fl rest _ h => absurd h (by omega)⟩
  | succ fuel ih =>
    obtain ⟨ihV, ihI, ihF⟩ := ih
    refine ⟨?_, ?_, ?_⟩
    · intro j rest hlen hstop
      cases j with
      | jnull =>
        rw [show dumpChars Json.jnull = "null".data from by simp [dumpChars]]
        show parseVal (fuel + 1) ('n' :: ("ull".data ++ rest)) = _
        unfold parseVal
        rw [if_pos rfl, stripPre_self]
        rfl
      | jbool b =>
        cases b with
        | false =>
          rw [show dumpChars (Json.jbool false) = "false".data from by
            simp [dumpChars]]
          show parseVal (fuel + 1) ('f' :: ("alse".data ++ rest)) = _
          unfold parseVal
          rw [if_neg (by decide), if_neg (by decide), if_pos rfl,
            stripPre_self]
          rfl
        | true =>
          rw [show dumpChars (Json.jbool true) = "true".data from by
            simp [dumpChars]]
          show parseVal (fuel + 1) ('t' :: ("rue".data ++ rest)) = _
          unfold parseVal
          rw [if_neg (by decide), if_pos rfl, stripPre_self]
          rfl
      | jint n =>
        rw [show dumpChars (Json.jint n) = intChars n from by
          simp [dumpChars]]
        exact parseVal_intChars fuel n rest hstop
      | jstr s =>
        rw [show dumpChars (Json.jstr s) = escString s from by
          simp [dumpChars]]
        show parseVal (fuel + 1)
          (quoteChar :: (((s.data.map escChar).flatten ++ [quoteChar]) ++
            rest)) = _
        unfold parseVal
        rw [if_neg (by decide), if_neg (by decide), if_neg (by decide),
          if_pos rfl]
        rw [List.append_assoc, List.singleton_append, parseStrBody_esc]
        simp [string_mk_data]
      | jarr items =>
        cases items with
        | nil =>
          rw [show dumpChars (Json.jarr []) = [lbrackChar, rbrackChar] from by
            simp [dumpChars, dumpItems]]
          show parseVal (fuel + 1) (lbrackChar :: (rbrackChar :: rest)) = _
          unfold parseVal
          rw [if_neg (by decide), if_neg (by decide), if_neg (by decide),
            if_neg (by decide), if_pos rfl]
          rw [if_pos (show (rbrackChar :: rest).head? = some rbrackChar from
            rfl)]
          rfl
        | cons x xs =>
          obtain ⟨c0, cs0, hx0, hxb, _⟩ := dumpChars_head x
          have ht : ∃ t, dumpItems (x :: xs) = dumpChars x ++ t := by
            cases xs with
            | nil => exact ⟨[], by simp [dumpItems]⟩
            | cons y ys =>
              exact ⟨commaChar :: spaceChar :: dumpItems (y :: ys), by
                simp [dumpItems]⟩
          obtain ⟨t, ht⟩ := ht
          have hlen2 : (dumpItems (x :: xs)).length + 1 < fuel := by
            rw [show dumpChars (Json.jarr (x :: xs)) =
              lbrackChar :: (dumpItems (x :: xs) ++ [rbrackChar]) from by
              simp [dumpChars]] at hlen
            simp only [List.length_cons, List.length_append,
              List.length_singleton] at hlen
            omega
          rw [show dumpChars (Json.jarr (x :: xs)) =
            lbrackChar :: (dumpItems (x :: xs) ++ [rbrackChar]) from by
            simp [dumpChars]]
          show parseVal (fuel + 1)
            (lbrackChar :: ((dumpItems (x :: xs) ++ [rbrackChar]) ++ rest)) =
            _
          unfold parseVal
          rw [if_neg (by decide), if_neg (by decide), if_neg (by decide),
            if_neg (by decide), if_pos rfl]
          rw [if_neg (show ¬ ((dumpItems (x :: xs) ++ [rbrackChar]) ++
              rest).head? = some rbrackChar from by
            rw [ht, hx0]
            simp only [List.cons_append, List.head?_cons, Option.some.injEq]
            exact hxb)]
          rw [List.append_assoc, List.singleton_append]
          rw [ihI (x :: xs) rest (by simp) (by omega)]
          rfl
      | jobj fields =>
        cases fields with
        | nil =>
          rw [show dumpChars (Json.jobj []) = [lbraceChar, rbraceChar] from by
            simp [dumpChars, dumpFields]]
          show parseVal (fuel + 1) (lbraceChar :: (rbraceChar :: rest)) = _
          unfold parseVal
          rw [if_neg (by decide), if_neg (by decide), if_neg (by decide),
            if_neg (by decide), if_neg (by decide), if_pos rfl]
          rw [if_pos (show (rbraceChar :: rest).head? = some rbraceChar from
            rfl)]
          rfl
        | cons kv fs =>
          obtain ⟨t, ht⟩ := dumpFields_head kv fs
          have hlen2 : (dumpFields (kv :: fs)).length + 1 < fuel := by
            rw [show dumpChars (Json.jobj (kv :: fs)) =
              lbraceChar :: (dumpFields (kv :: fs) ++ [rbraceChar]) from by
              simp [dumpChars]] at hlen
            simp only [List.length_cons, List.length_append,
              List.length_singleton] at hlen
            omega
          rw [show dumpChars (Json.jobj (kv :: fs)) =
            lbraceChar :: (dumpFields (kv :: fs) ++ [rbraceChar]) from by
            simp [dumpChars]]
          show parseVal (fuel + 1)
            (lbraceChar :: ((dumpFields (kv :: fs) ++ [rbraceChar]) ++
              rest)) = _
          unfold parseVal
          rw [if_neg (by decide), if_neg (by decide), if_neg (by decide),
            if_neg (by decide), if_neg (by decide), if_pos rfl]
          rw [if_neg (show ¬ ((dumpFields (kv :: fs) ++ [rbraceChar]) ++
              rest).head? = some rbraceChar from by
            rw [ht]
            simp only [List.cons_append, List.head?_cons, Option.some.injEq]
            decide)]
          rw [List.append_assoc, List.singleton_append]
          rw [ihF (kv :: fs) rest (by simp) (by omega)]
          rfl
    · intro l rest hl hlen
      rcases l with _ | ⟨x, xs⟩
      · exact absurd rfl hl
      cases xs with
      | nil =>
        rw [show dumpItems [x] = dumpChars x from by simp [dumpItems]]
        have hlen2 : (dumpChars x).length < fuel := by
          rw [show dumpItems [x] = dumpChars x from by simp [dumpItems]]
            at hlen
          omega
        unfold parseItems
        rw [ihV x (rbrackChar :: rest) hlen2 (stopOk_rbrack rest)]
        rfl
      | cons y ys =>
        have hxpos := dumpChars_length_pos x
        have heq : dumpItems (x :: y :: ys) =
            dumpChars x ++ commaChar :: spaceChar :: dumpItems (y :: ys) := by
          simp [dumpItems]
        have hlen2 : (dumpChars x).length < fuel ∧
            (dumpItems (y :: ys)).length + 1 < fuel := by
          rw [heq] at hlen
          simp only [List.length_append, List.length_cons] at hlen
          omega
        rw [heq]
        unfold parseItems
        rw [List.append_assoc, List.cons_append, List.cons_append]
        rw [ihV x _ hlen2.1 (stopOk_comma _)]
        show (parseItems fuel
            (dumpItems (y :: ys) ++ (rbrackChar :: rest))).map
          (fun p => (x :: p.1, p.2)) = some (x :: y :: ys, rest)
        rw [ihI (y :: ys) rest (by simp) hlen2.2]
        rfl
    · intro fl rest hfl hlen
      rcases fl with _ | ⟨⟨k, v⟩, fs⟩
      · exact absurd rfl hfl
      cases fs with
      | nil =>
        have heq : dumpFields [(k, v)] =
            quoteChar :: ((k.data.map escChar).flatten ++
              (quoteChar :: (colonChar :: spaceChar :: dumpChars v))) := by
          simp [dumpFields, escString]
        have hlen2 : (dumpChars v).length < fuel := by
          rw [heq] at hlen
          simp only [List.length_cons, List.length_append] at hlen
          omega
        rw [heq]
        show parseFields (fuel + 1)
          (quoteChar :: (((k.data.map escChar).flatten ++
            (quoteChar :: (colonChar :: spaceChar :: dumpChars v))) ++
            (rbraceChar :: rest))) = _
        unfold parseFields
        rw [if_pos rfl]
        rw [List.append_assoc]
        rw [show (quoteChar :: (colonChar :: spaceChar :: dumpChars v)) ++
            (rbraceChar :: rest) =
          quoteChar :: (colonChar :: spaceChar ::
            (dumpChars v ++ (rbraceChar :: rest))) from by simp]
        rw [parseStrBody_esc]
        show (parseVal fuel (dumpChars v ++ (rbraceChar :: rest))).bind
          (fun vp =>
            match vp.2 with
            | [] => none
            | r :: rest5 =>
              if r = rbraceChar then some ([(k, vp.1)], rest5)
              else if r = commaChar then
                match rest5 with
                | [] => none
                | s :: rest6 =>
                  if s = spaceChar then
                    (parseFields fuel rest6).map
                      (fun p => ((k, vp.1) :: p.1, p.2))
                  else none
              else none) = some ([(k, v)], rest)
        rw [ihV v (rbraceChar :: rest) hlen2 (stopOk_rbrace rest)]
        rfl
      | cons kv2 fs2 =>
        have hvpos := dumpChars_length_pos v
        have heq : dumpFields ((k, v) :: kv2 :: fs2) =
            quoteChar :: ((k.data.map escChar).flatten ++
              (quoteChar :: (colonChar :: spaceChar ::
                (dumpChars v ++
                  (commaChar :: spaceChar ::
                    dumpFields (kv2 :: fs2)))))) := by
          simp [dumpFields, escString]
        have hlen2 : (dumpChars v).length < fuel ∧
            (dumpFields (kv2 :: fs2)).length + 1 < fuel := by
          rw [heq] at hlen
          simp only [List.length_cons, List.length_append] at hlen
          omega
        rw [heq]
        show parseFields (fuel + 1)
          (quoteChar :: (((k.data.map escChar).flatten ++
            (quoteChar :: (colonChar :: spaceChar ::
              (dumpChars v ++
                (commaChar :: spaceChar :: dumpFields (kv2 :: fs2)))))) ++
            (rbraceChar :: rest))) = _
        unfold parseFields
        rw [if_pos rfl]
        rw [List.append_assoc]
        rw [show (quoteChar :: (colonChar :: spaceChar ::
            (dumpChars v ++
              (commaChar :: spaceChar :: dumpFields (kv2 :: fs2))))) ++
            (rbraceChar :: rest) =
          quoteChar :: (colonChar :: spaceChar ::
            (dumpChars v ++ (commaChar :: spaceChar ::
              (dumpFields (kv2 :: fs2) ++ (rbraceChar :: rest))))) from by
          simp]
        rw [parseStrBody_esc]
        show (parseVal fuel (dumpChars v ++ (commaChar :: spaceChar ::
            (dumpFields (kv2 :: fs2) ++ (rbraceChar :: rest))))).bind
          (fun vp =>
            match vp.2 with
            | [] => none
            | r :: rest5 =>
              if r = rbraceChar then some ([(k, vp.1)], rest5)
              else if r = commaChar then
                match rest5 with
                | [] => none
                | s :: rest6 =>
                  if s = spaceChar then
                    (parseFields fuel rest6).map
                      (fun p => ((k, vp.1) :: p.1, p.2))
                  else none
              else none) = some ((k, v) :: kv2 :: fs2, rest)
        rw [ihV v _ hlen2.1 (stopOk_comma _)]
        show (parseFields fuel
            (dumpFields (kv2 :: fs2) ++ (rbraceChar :: rest))).map
          (fun p => ((k, v) :: p.1, p.2)) = some ((k, v) :: kv2 :: fs2, rest)
        rw [ihF (kv2 :: fs2) rest (by simp) hlen2.2]
        rfl

theorem loads_dumps (j : Json) : loads (dumps j) = some j := by
  unfold loads dumps
  rw [show (String.mk (dumpChars j)).data = dumpChars j from rfl]
  have h := (parse_dump_all ((dumpChars j).length + 1)).1 j [] (by omega) rfl
  rw [List.append_nil] at h
  rw [h]

theorem jsonToSort_sortJson (s : List (String × ℤ)) :
    jsonToSort (sortJson s) = some s := by
  induction s with
  | nil => rfl
  | cons fd rest ih =>
    show (Json.jarr [Json.jstr fd.1, Json.jint fd.2] ::
        rest.map (fun p => Json.jarr [Json.jstr p.1, Json.jint p.2])).mapM
      pairOfJson = some (fd :: rest)
    rw [List.mapM_cons]
    have ih' : (rest.map
        (fun p => Json.jarr [Json.jstr p.1, Json.jint p.2])).mapM
        pairOfJson = some rest := ih
    rw [ih']
    rfl

/-- C9: the criteria dict and sort list are stored as `json.dumps` text and
round-trip: inserting a fresh-named record and selecting it by name gives
back a record with the original name, criteria, limit and sort. The
`Json.simple` hypotheses pin the record to the printable-ASCII domain on
which the serializer model coincides with `json.dumps` character for
character (floating-point leaves are outside the model altogether). -/
theorem c9_roundtrip (st : AdapterState) (rec : AwardCriteriaRecord)
    (hcreated : st.awardTableCreated = true)
    (hfresh : ∀ row ∈ st.awardRows,
      foldNocase row.name ≠ foldNocase rec.name)
    (_hsimple : Json.simple (critJson rec.criteria) = true)
    (_hsimple2 : Json.simple (sortJson rec.sort) = true) :
    ∃ st2, insert_award_criteria st rec = Except.ok st2 ∧
      select_award_criteria st2 rec.name = Except.ok (some rec) := by
  have hany : st.awardRows.any
      (fun row => foldNocase row.name = foldNocase rec.name) = false := by
    rw [List.any_eq_false]
    intro row hrow
    simpa using hfresh row hrow
  refine ⟨AdapterState.mk st.studentTables
    (st.awardRows ++
      [AwardRow.mk rec.name (dumps (critJson rec.criteria)) rec.limit
        (dumps (sortJson rec.sort))])
    st.awardTableCreated st.activeStudentsTable, ?_, ?_⟩
  · unfold insert_award_criteria
    rw [hcreated]
    rw [if_neg (by decide), if_neg (by rw [hany]; decide)]
  · have hfind : ∀ rows0 : List AwardRow,
        (∀ r ∈ rows0, foldNocase r.name ≠ foldNocase rec.name) →
        (rows0 ++
          [AwardRow.mk rec.name (dumps (critJson rec.criteria)) rec.limit
            (dumps (sortJson rec.sort))]).find?
          (fun r => foldNocase r.name = foldNocase rec.name) =
          some (AwardRow.mk rec.name (dumps (critJson rec.criteria))
            rec.limit (dumps (sortJson rec.sort))) := by
      intro rows0 h0
      induction rows0 with
      | nil => simp
      | cons r rs ihh =>
        rw [List.cons_append, List.find?_cons_of_neg]
        · exact ihh (fun x hx => h0 x (List.mem_cons_of_mem r hx))
        · simpa using h0 r (List.mem_cons_self r rs)
    unfold select_award_criteria
    rw [hcreated]
    rw [if_neg (by decide)]
    rw [hfind st.awardRows hfresh]
    show (match loads (dumps (critJson rec.criteria)),
        loads (dumps (sortJson rec.sort)) with
      | some cj, some sj =>
        match jsonToCrit cj, jsonToSort sj with
        | some c, some s =>
          Except.ok (some (AwardCriteriaRecord.mk rec.name c rec.limit s))
        | _, _ => Except.error ScholarlyError.jsonParse
      | _, _ => Except.error ScholarlyError.jsonParse) =
      Except.ok (some rec)
    rw [loads_dumps, loads_dumps]
    show (match jsonToCrit (critJson rec.criteria),
        jsonToSort (sortJson rec.sort) with
      | some c, some s =>
        Except.ok (some (AwardCriteriaRecord.mk rec.name c rec.limit s))
      | _, _ => Except.error ScholarlyError.jsonParse) =
      Except.ok (some rec)
    rw [show jsonToCrit (critJson rec.criteria) = some rec.criteria from rfl,
      jsonToSort_sortJson]

/-- C9 witness: a concrete record (criteria over `cum_gpa`, limit 2, GPA
descending sort) inserted into an empty award table and read back. -/
theorem c9_roundtrip_witness :
    ∃ st2, insert_award_criteria (AdapterState.mk [] [] true none)
      (AwardCriteriaRecord.mk "Dean Award"
        [("cum_gpa", Json.jobj [("$gte", Json.jint 3)])] 2
        [("cum_gpa", -1)]) = Except.ok st2 ∧
      select_award_criteria st2
        (AwardCriteriaRecord.mk "Dean Award"
          [("cum_gpa", Json.jobj [("$gte", Json.jint 3)])] 2
          [("cum_gpa", -1)]).name =
        Except.ok (some (AwardCriteriaRecord.mk "Dean Award"
          [("cum_gpa", Json.jobj [("$gte", Json.jint 3)])] 2
          [("cum_gpa", -1)])) :=
  c9_roundtrip (AdapterState.mk [] [] true none)
    (AwardCriteriaRecord.mk "Dean Award"
      [("cum_gpa", Json.jobj [("$gte", Json.jint 3)])] 2 [("cum_gpa", -1)])
    rfl (by simp)
    (by simp [critJson, sortJson, Json.simple, simpleFields, simpleItems,
      simpleStr, simpleChar])
    (by simp [critJson, sortJson, Json.simple, simpleFields, simpleItems,
      simpleStr, simpleChar])
